import Mathlib

/-!
# custom-exporter: the collection pipeline of `cmd/custom-exporter/main.go`

A shallow embedding of the collector (`Collect`, `fetchData`, `parseData`,
`extractJSONValue`) and the properties of the collection pipeline.

Conventions of the embedding.

* A Go `string` is a Lean `String`, read as its sequence of runes.
* A Go `int` / `int64` is an `Int`; where the program multiplies (the interval
  in seconds times `time.Second`) the product is wrapped to 64 bits.
* A Go result pair `(value, err)` is a pair whose second component is an
  `Option Error` (`none` is `nil`): the caller of `fetchData` uses the value
  whether or not there is an error, so both components are kept.
* What the program gets from outside the repository is a parameter: the
  library functions with no small closed form (`strconv.ParseFloat`, `regexp`,
  `encoding/json`, `fmt.Sprintf("%v", _)`, the validation of
  `prometheus.NewDesc`) are the fields of `Lib`, and the outside world of one
  loop iteration (the clock, the shell, the network, the file system) is a
  `World`.
* A panic is part of what a run does: `prometheus.MustNewConstMetric` panics on
  a descriptor that carries an error, the panic ends the run of `Collect`, and
  `Outcome.panicked` records it. `Registered` says that the collector has passed
  `prometheus.MustRegister`, as every collector that serves a scrape has.
-/

namespace CustomExporter

/-! ## Strings (`strings.TrimSpace`, `strings.Split`, `strconv.Atoi`) -/

/-- White space as `unicode.IsSpace` defines it: in Latin-1 the runes
`\t \n \v \f \r`, space, U+0085 and U+00A0; beyond it the runes of the
property White_Space, U+1680, U+2000 to U+200A, U+2028, U+2029, U+202F, U+205F
and U+3000. -/
def isSpace (c : Char) : Bool :=
  (0x09 ≤ c.toNat && c.toNat ≤ 0x0D) || c.toNat == 0x20 || c.toNat == 0x85 || c.toNat == 0xA0 ||
  c.toNat == 0x1680 || (0x2000 ≤ c.toNat && c.toNat ≤ 0x200A) || c.toNat == 0x2028 ||
  c.toNat == 0x2029 || c.toNat == 0x202F || c.toNat == 0x205F || c.toNat == 0x3000

/-- The runes of a string without its leading and trailing white space. -/
def trimSpaceList (cs : List Char) : List Char :=
  ((cs.dropWhile isSpace).reverse.dropWhile isSpace).reverse

/-- Go's `strings.TrimSpace`: the string without leading and trailing white space. -/
def TrimSpace (s : String) : String :=
  String.mk (trimSpaceList s.toList)

/-- The loop of `strings.Split` for a non-empty separator, scanning left to
right: `skip` counts the runes of a separator just found that are still to be
passed over, `acc` holds (reversed) the runes of the piece being read. Each
piece ends at the first occurrence of the separator after its start. -/
def splitLoop (sep : List Char) : Nat → List Char → List Char → List (List Char)
  | _, acc, [] => [acc.reverse]
  | skip + 1, acc, _ :: cs => splitLoop sep skip acc cs
  | 0, acc, c :: cs =>
    if sep.isPrefixOf (c :: cs) then acc.reverse :: splitLoop sep (sep.length - 1) [] cs
    else splitLoop sep 0 (c :: acc) cs

/-- Go's `strings.Split(s, sep)`: the pieces of `s` between the occurrences of
`sep`; with an empty `sep`, one piece per rune (none for the empty string). -/
def Split (s sep : String) : List String :=
  if sep = "" then s.toList.map (fun c => String.mk [c])
  else (splitLoop sep.toList 0 [] s.toList).map String.mk

/-- The value of a run of decimal digits, `none` if a rune is not `0`..`9`. -/
def digitsValue : List Char → Nat → Option Nat
  | [], n => some n
  | c :: cs, n =>
    if 48 ≤ c.toNat ∧ c.toNat ≤ 57 then digitsValue cs (n * 10 + (c.toNat - 48)) else none

/-- Go's `strconv.Atoi` on a 64-bit platform: an optional sign, then one or more
decimal digits, the value within the range of `int`; `none` is `err != nil`. -/
def Atoi (s : String) : Option Int :=
  let unsigned (ds : List Char) : Option Nat := if ds = [] then none else digitsValue ds 0
  match s.toList with
  | '-' :: ds => (unsigned ds).bind fun n => if n ≤ 2 ^ 63 then some (-(n : Int)) else none
  | '+' :: ds => (unsigned ds).bind fun n => if n < 2 ^ 63 then some (n : Int) else none
  | ds => (unsigned ds).bind fun n => if n < 2 ^ 63 then some (n : Int) else none

/-! ## Values and errors -/

/-- A Go `float64`, identified by its IEEE-754 binary64 bit pattern. -/
structure Float64 where
  bits : Nat
  deriving DecidableEq, Repr

/-- The `float64` constant `0` (positive zero), written `0.0` in the specification. -/
def Float64.zero : Float64 := ⟨0⟩

/-- The errors the pipeline builds, one constructor per `fmt.Errorf` call or
passed-through library error of `main.go`. -/
inductive Error where
  /-- The error `unsupported exporter type: %s`. -/
  | unsupportedType (type : String)
  /-- The error `command execution failed: %v, output: %s`. -/
  | commandFailed (err output : String)
  /-- An error of `net/http`, `io` or `os`, returned unchanged. -/
  | source (err : String)
  /-- The error `invalid regex pattern: %v`. -/
  | invalidRegex (err : String)
  /-- The error `regex pattern did not match or capture group not found`. -/
  | regexNoMatch
  /-- The error `failed to parse JSON: %v`. -/
  | jsonDecode (err : String)
  /-- The error `JSON path not found: %s`. -/
  | pathNotFound (part : String)
  /-- The error `invalid array index: %s`. -/
  | invalidIndex (part : String)
  /-- The error `array index out of range: %d`. -/
  | indexOutOfRange (index : Int)
  /-- The error `cannot navigate JSON path at: %s`. -/
  | cannotNavigate (part : String)
  /-- The error `line number %d out of range`. -/
  | lineOutOfRange (lineNum : Int)
  /-- The error `split index %d out of range`. -/
  | splitOutOfRange (index : Int)
  /-- The error `failed to parse value as a number: %v`. -/
  | notANumber (err : String)
  deriving DecidableEq, Repr

/-- A decoded JSON value, as `json.Unmarshal` stores it in an `interface{}`:
`nil`, `bool`, `float64`, `string`, `[]interface{}` or `map[string]interface{}`.
An object is the list of its members; a key is looked up with `List.lookup`. -/
inductive JSON where
  | null
  | bool (b : Bool)
  | number (x : Float64)
  | string (s : String)
  | array (v : List JSON)
  | object (v : List (String × JSON))

/-- A compiled regular expression (`*regexp.Regexp`), seen through what
`FindStringSubmatch` documents: the number of parenthesised subexpressions, and
for a text either no match, or the text of the leftmost match together with the
text of each subexpression in it. -/
structure Regexp where
  NumSubexp : Nat
  leftmost : String → Option (String × (Fin NumSubexp → String))

/-- Go's `(*Regexp).FindStringSubmatch`: `nil` (the empty list) when there is no
match, else the leftmost match followed by its submatches. -/
def Regexp.FindStringSubmatch (re : Regexp) (s : String) : List String :=
  match re.leftmost s with
  | none => []
  | some (whole, sub) => whole :: List.ofFn sub

/-- The library functions the collector calls: those of the standard library the
parser uses, and the validation `prometheus.NewDesc` performs. -/
structure Lib where
  /-- The call `strconv.ParseFloat(s, 64)`. -/
  ParseFloat : String → Except String Float64
  /-- The call `regexp.Compile(pattern)`. -/
  Compile : String → Except String Regexp
  /-- The call `json.Unmarshal([]byte(raw), &v)` for `v` an `interface{}`. -/
  Unmarshal : String → Except String JSON
  /-- The call `fmt.Sprintf("%v", v)` on a decoded JSON value. -/
  Sprint : JSON → String
  /-- The error `prometheus.NewDesc(fqName, help, nil, constLabels)` records in
  the descriptor it returns when the name, the help or a label is not valid. -/
  DescErr : String → String → List (String × String) → Option String

/-! ## Configuration -/

/-- The parser configuration (`type Parser struct`). -/
structure Parser where
  /-- The field `Type` (a reserved word here). -/
  Typ : String
  Pattern : String
  JsonPath : String
  LineNum : Int
  Split : String
  Index : Int
  deriving DecidableEq, Repr

/-- One exporter of the configuration (`type Exporter struct`). -/
structure Exporter where
  Name : String
  /-- The field `Type` (a reserved word here). -/
  Typ : String
  Command : String
  URL : String
  FilePath : String
  Interval : Int
  MetricType : String
  Parser : Parser
  Labels : List (String × String)
  Description : String
  deriving DecidableEq, Repr

/-- The configuration (`type Config struct`). -/
structure Config where
  Exporters : List Exporter
  deriving DecidableEq, Repr

/-! ## The parser (`parseData`, `extractJSONValue`) -/

/-- The loop of `extractJSONValue` over the segments of the path. -/
def extractJSONValue.loop (lib : Lib) : JSON → List String → String × Option Error
  | current, [] => (lib.Sprint current, none)
  | .object v, part :: rest =>
    match v.lookup part with
    | some val => extractJSONValue.loop lib val rest
    | none => ("", some (.pathNotFound part))
  | .array v, part :: rest =>
    match Atoi part with
    | none => ("", some (.invalidIndex part))
    | some index =>
      if h : index ≥ v.length ∨ index < 0 then ("", some (.indexOutOfRange index))
      else extractJSONValue.loop lib (v.get ⟨index.toNat, by omega⟩) rest
  | _, part :: _ => ("", some (.cannotNavigate part))

/-- The method `extractJSONValue(data, path)`. -/
def extractJSONValue (lib : Lib) (data : JSON) (path : String) : String × Option Error :=
  if path = "" then (lib.Sprint data, none)
  else extractJSONValue.loop lib data (Split path ".")

/-- The last step of `parseData`: `strconv.ParseFloat(result, 64)`, an error
becoming `0` with `failed to parse value as a number`. -/
def parseData.convert (lib : Lib) (result : String) : Float64 × Option Error :=
  match lib.ParseFloat result with
  | .error err => (Float64.zero, some (.notANumber err))
  | .ok value => (value, none)

/-- The method `parseData(rawData, parser)`. -/
def parseData (lib : Lib) (rawData : String) (parser : Parser) : Float64 × Option Error :=
  if parser.Typ = "regex" then
    match lib.Compile parser.Pattern with
    | .error err => (Float64.zero, some (.invalidRegex err))
    | .ok re =>
      let found := re.FindStringSubmatch rawData
      if h : found.length < 2 then (Float64.zero, some .regexNoMatch)
      else parseData.convert lib (found.get ⟨1, by omega⟩)
  else if parser.Typ = "json" then
    match lib.Unmarshal rawData with
    | .error err => (Float64.zero, some (.jsonDecode err))
    | .ok jsonData =>
      match extractJSONValue lib jsonData parser.JsonPath with
      | (_, some err) => (Float64.zero, some err)
      | (result, none) => parseData.convert lib result
  else if parser.Typ = "line" then
    let lines := Split (TrimSpace rawData) "\n"
    if h : parser.LineNum ≥ lines.length ∨ parser.LineNum < 0 then
      (Float64.zero, some (.lineOutOfRange parser.LineNum))
    else parseData.convert lib (TrimSpace (lines.get ⟨parser.LineNum.toNat, by omega⟩))
  else if parser.Typ = "split" then
    let parts := Split (TrimSpace rawData) parser.Split
    if h : parser.Index ≥ parts.length ∨ parser.Index < 0 then
      (Float64.zero, some (.splitOutOfRange parser.Index))
    else parseData.convert lib (TrimSpace (parts.get ⟨parser.Index.toNat, by omega⟩))
  else parseData.convert lib (TrimSpace rawData)

/-! ## Time (`time.Since`, `time.Duration`) -/

/-- A reading of the monotonic clock, in nanoseconds: what `time.Now()` records
and `time.Since` compares. -/
abbrev Time := Int

/-- The least `time.Duration` (`math.MinInt64`). -/
def minDuration : Int := -(2 ^ 63)

/-- The greatest `time.Duration` (`math.MaxInt64`). -/
def maxDuration : Int := 2 ^ 63 - 1

/-- The constant `time.Second`, in nanoseconds. -/
def Second : Int := 1000000000

/-- A 64-bit signed product or sum as Go computes it: wrapped around. -/
def wrap64 (x : Int) : Int := (x + 2 ^ 63) % 2 ^ 64 - 2 ^ 63

/-- Go's `time.Since(t)` when the clock reads `now`: the difference of the two
monotonic readings, saturated at the least and greatest duration. -/
def Since (now t : Time) : Int := max minDuration (min maxDuration (now - t))

/-- The expression `time.Duration(exporter.Interval)*time.Second`: an `int64`
product. -/
def intervalDuration (interval : Int) : Int := wrap64 (interval * Second)

/-! ## Metrics (`prometheus.NewDesc`, `prometheus.MustNewConstMetric`) -/

/-- The value types `prometheus.CounterValue` and `prometheus.GaugeValue`. -/
inductive ValueType where
  | CounterValue
  | GaugeValue
  deriving DecidableEq, Repr

/-- A descriptor (`*prometheus.Desc`): what `prometheus.NewDesc(fqName, help,
nil, constLabels)` is given, and the error it records when that is not valid. -/
structure Desc where
  fqName : String
  help : String
  constLabels : List (String × String)
  err : Option String
  deriving DecidableEq, Repr

/-- A constant metric: what `prometheus.MustNewConstMetric(desc, valueType,
value)` is given. -/
structure Metric where
  desc : Desc
  valueType : ValueType
  value : Float64
  deriving DecidableEq, Repr

/-- The call `prometheus.NewDesc(fqName, help, nil, constLabels)`: it never
fails, an invalid descriptor carries its error. -/
def NewDesc (lib : Lib) (fqName help : String) (constLabels : List (String × String)) : Desc :=
  ⟨fqName, help, constLabels, lib.DescErr fqName help constLabels⟩

/-- The call `prometheus.MustNewConstMetric(desc, valueType, value)` with no
label value: the metric, or the panic (`.error`) it raises when the descriptor
carries an error. -/
def MustNewConstMetric (desc : Desc) (valueType : ValueType) (value : Float64) :
    Except String Metric :=
  match desc.err with
  | some err => .error err
  | none => .ok ⟨desc, valueType, value⟩

/-! ## Sources (`executeCommand`, `fetchHTTP`, `readFile`, `fetchData`) -/

/-- The world outside the process during one iteration of the loop of
`Collect`: the two readings of the clock and the answers of the shell, of the
network and of the file system. -/
structure World where
  /-- The monotonic clock when `time.Since(lastFetchTime)` is evaluated. -/
  sinceClock : Time
  /-- The call `cmd.Run()` of `sh -c command` under its 30 s timeout: its error,
  if any, and the combined standard output and standard error. -/
  Run : String → Option String × String
  /-- The call `client.Get(url)` under its 10 s timeout, then
  `io.ReadAll(resp.Body)`. -/
  Get : String → Except String (Except String String)
  /-- The call `os.ReadFile(filePath)`. -/
  ReadFile : String → Except String String
  /-- The monotonic clock at the `time.Now()` that is stored in `lastFetch`. -/
  nowClock : Time

/-- The method `executeCommand(command)`. -/
def executeCommand (w : World) (command : String) : String × Option Error :=
  match w.Run command with
  | (some err, out) => ("", some (.commandFailed err out))
  | (none, out) => (out, none)

/-- The method `fetchHTTP(url)`. -/
def fetchHTTP (w : World) (url : String) : String × Option Error :=
  match w.Get url with
  | .error err => ("", some (.source err))
  | .ok (.error err) => ("", some (.source err))
  | .ok (.ok body) => (body, none)

/-- The method `readFile(filePath)`. -/
def readFile (w : World) (filePath : String) : String × Option Error :=
  match w.ReadFile filePath with
  | .error err => ("", some (.source err))
  | .ok data => (data, none)

/-- The tail of `fetchData` after the `switch`: an error of the source is
returned with the value `0`, otherwise the raw data is parsed. -/
def fetchData.parse (lib : Lib) (exporter : Exporter) :
    String × Option Error → Float64 × Option Error
  | (_, some err) => (Float64.zero, some err)
  | (rawData, none) => parseData lib rawData exporter.Parser

/-- The method `fetchData(exporter)`. -/
def fetchData (lib : Lib) (w : World) (exporter : Exporter) : Float64 × Option Error :=
  if exporter.Typ = "command" then fetchData.parse lib exporter (executeCommand w exporter.Command)
  else if exporter.Typ = "http" then fetchData.parse lib exporter (fetchHTTP w exporter.URL)
  else if exporter.Typ = "file" then fetchData.parse lib exporter (readFile w exporter.FilePath)
  else (Float64.zero, some (.unsupportedType exporter.Typ))

/-! ## The collector (`CustomCollector`, `NewCustomCollector`, `Collect`) -/

/-- The assignment `m[k] = v` on a Go map held as a list of entries: the entry
of key `k` is replaced where it stands, or added. Reading `m[k]` is
`List.lookup k m`. -/
def mapSet {V : Type} : List (String × V) → String → V → List (String × V)
  | [], k, v => [(k, v)]
  | (k', v') :: rest, k, v => if k' = k then (k, v) :: rest else (k', v') :: mapSet rest k v

/-- The collector (`type CustomCollector struct`); the mutex has no content in
a sequential run. -/
structure CustomCollector where
  config : Config
  metrics : List (String × Metric)
  lastFetch : List (String × Time)
  deriving DecidableEq, Repr

/-- The function `NewCustomCollector(config)`. -/
def NewCustomCollector (config : Config) : CustomCollector :=
  ⟨config, [], []⟩

/-- What a run of `Collect`, or of one iteration of its loop, does: the
collector it leaves, the metrics it sends on the channel, the exporters it
calls `fetchData` for and the errors it logs, each in order, and the panic that
ended it, if one did. -/
structure Outcome where
  collector : CustomCollector
  sent : List Metric
  fetched : List Exporter
  logged : List (String × Error)
  panicked : Option String
  deriving DecidableEq, Repr

/-- The cache test at the head of the loop of `Collect`: the cached metric that
is sent, if `lastFetch` has the exporter's name, the time since then is less
than the interval, and `metrics` has the name. -/
def Collect.cached (w : World) (c : CustomCollector) (exporter : Exporter) : Option Metric :=
  match c.lastFetch.lookup exporter.Name with
  | some lastFetchTime =>
    if Since w.sinceClock lastFetchTime < intervalDuration exporter.Interval then
      c.metrics.lookup exporter.Name
    else none
  | none => none

/-- The metric the loop of `Collect` builds from a value, a counter for the
metric type `counter`, a gauge for any other; or the panic of
`MustNewConstMetric`. -/
def Collect.metric (lib : Lib) (exporter : Exporter) (value : Float64) : Except String Metric :=
  let desc := NewDesc lib exporter.Name exporter.Description exporter.Labels
  if exporter.MetricType = "counter" then MustNewConstMetric desc .CounterValue value
  else MustNewConstMetric desc .GaugeValue value

/-- The lines `Collect` logs for the result of `fetchData`. -/
def Collect.log (exporter : Exporter) : Option Error → List (String × Error)
  | some err => [(exporter.Name, err)]
  | none => []

/-- One iteration of the loop of `Collect`, for one exporter. A panic of
`MustNewConstMetric` comes after the call of `fetchData` and the log line, and
before the cache is written and the metric sent. -/
def Collect.body (lib : Lib) (w : World) (c : CustomCollector) (exporter : Exporter) : Outcome :=
  match Collect.cached w c exporter with
  | some cachedMetric => ⟨c, [cachedMetric], [], [], none⟩
  | none =>
    let r := fetchData lib w exporter
    match Collect.metric lib exporter r.1 with
    | .error p => ⟨c, [], [exporter], Collect.log exporter r.2, some p⟩
    | .ok metric =>
      ⟨⟨c.config, mapSet c.metrics exporter.Name metric,
          mapSet c.lastFetch exporter.Name w.nowClock⟩,
        [metric], [exporter], Collect.log exporter r.2, none⟩

/-- The loop of `Collect` over the exporters still to process; `ws i` is the
world during iteration `i`. A panic ends the loop. -/
def Collect.loop (lib : Lib) (ws : Nat → World) :
    Nat → CustomCollector → List Exporter → Outcome
  | _, c, [] => ⟨c, [], [], [], none⟩
  | i, c, exporter :: rest =>
    match (Collect.body lib (ws i) c exporter).panicked with
    | some _ => Collect.body lib (ws i) c exporter
    | none =>
      ⟨(Collect.loop lib ws (i + 1) (Collect.body lib (ws i) c exporter).collector rest).collector,
        (Collect.body lib (ws i) c exporter).sent ++
          (Collect.loop lib ws (i + 1) (Collect.body lib (ws i) c exporter).collector rest).sent,
        (Collect.body lib (ws i) c exporter).fetched ++
          (Collect.loop lib ws (i + 1) (Collect.body lib (ws i) c exporter).collector rest).fetched,
        (Collect.body lib (ws i) c exporter).logged ++
          (Collect.loop lib ws (i + 1) (Collect.body lib (ws i) c exporter).collector rest).logged,
        (Collect.loop lib ws (i + 1) (Collect.body lib (ws i) c exporter).collector
          rest).panicked⟩

/-- The method `Collect(ch)`. -/
def Collect (lib : Lib) (ws : Nat → World) (c : CustomCollector) : Outcome :=
  Collect.loop lib ws 0 c c.config.Exporters

/-- The method `Describe(ch)`: the descriptors it sends, one per exporter. -/
def Describe (lib : Lib) (c : CustomCollector) : List Desc :=
  c.config.Exporters.map fun exporter =>
    NewDesc lib exporter.Name exporter.Description exporter.Labels

/-- The collector has passed `prometheus.MustRegister(collector)` of `main`:
registration calls `Describe` and refuses a collector one of whose descriptors
carries an error, and `main` panics then, before any scrape is served. -/
def Registered (lib : Lib) (c : CustomCollector) : Prop :=
  ∀ desc ∈ Describe lib c, desc.err = none

instance (lib : Lib) (c : CustomCollector) : Decidable (Registered lib c) := by
  unfold Registered
  infer_instance

/-- The collector when iteration `i` of the loop of `Collect` begins (what the
loop has left by then, if a panic ended it earlier). -/
def Collect.stateAt (lib : Lib) (ws : Nat → World) (c : CustomCollector) (i : Nat) :
    CustomCollector :=
  (Collect.loop lib ws 0 c (c.config.Exporters.take i)).collector

/-- The collectors a process can hold between two scrapes: the new collector,
and what a run of `Collect` leaves of such a collector. -/
inductive Reachable (lib : Lib) (config : Config) : CustomCollector → Prop where
  | new : Reachable lib config (NewCustomCollector config)
  | collect (ws : Nat → World) (c : CustomCollector) :
    Reachable lib config c → Reachable lib config (Collect lib ws c).collector

/-! ## The descent of the specification -/

/-- One step of the descent as the specification words it: an object looks the
segment up as a key, an absent key being an error; an array reads the segment
as an integer index, a non-numeric segment or an index outside `0..len-1` being
an error; any other value cannot be descended into. -/
def specDescend (current : JSON) (segment : String) : Except Error JSON :=
  match current with
  | .object members =>
    match members.lookup segment with
    | some value => .ok value
    | none => .error (.pathNotFound segment)
  | .array items =>
    match Atoi segment with
    | none => .error (.invalidIndex segment)
    | some index =>
      if index < 0 then .error (.indexOutOfRange index)
      else
        match items[index.toNat]? with
        | some value => .ok value
        | none => .error (.indexOutOfRange index)
  | _ => .error (.cannotNavigate segment)

/-- The descent along a path as the specification words it: one segment at a
time, from the left, stopping at the first error. -/
def specResolve (data : JSON) : List String → Except Error JSON
  | [] => .ok data
  | segment :: rest =>
    match specDescend data segment with
    | .ok value => specResolve value rest
    | .error err => .error err

/-! ## Invariants of the cache -/

/-- Both maps of the collector list the same keys, in the same order. -/
def SameKeys (c : CustomCollector) : Prop :=
  c.metrics.map Prod.fst = c.lastFetch.map Prod.fst

/-- Every cached metric is stored under its own name. -/
def Keyed (c : CustomCollector) : Prop :=
  ∀ (name : String) (m : Metric), c.metrics.lookup name = some m → m.desc.fqName = name

/-! ## Sample inputs

Concrete inputs on which the definitions are evaluated. -/

/-- A sample of `strconv.ParseFloat`: the numerals `3`, `7`, `20` and `42.5`
with their binary64 values; any other text is outside the sample and is
answered with an error. -/
def sampleParseFloat (s : String) : Except String Float64 :=
  if s = "3" then .ok ⟨0x4008000000000000⟩
  else if s = "7" then .ok ⟨0x401C000000000000⟩
  else if s = "20" then .ok ⟨0x4034000000000000⟩
  else if s = "42.5" then .ok ⟨0x4045400000000000⟩
  else .error "not a number of the sample"

/-- A sample of `fmt.Sprintf("%v", _)`: the numbers 7 and 20, and strings. -/
def sampleSprint : JSON → String
  | .number x =>
    if x.bits = 0x401C000000000000 then "7"
    else if x.bits = 0x4034000000000000 then "20"
    else ""
  | .string s => s
  | _ => ""

/-- The text `\d+\.?\d*` matches at the head of a list of runes, if any: the
longest run of digits, a dot if one follows, and the digits after it. -/
def sampleNumber (cs : List Char) : Option (List Char) :=
  if cs.takeWhile Char.isDigit = [] then none
  else
    match cs.dropWhile Char.isDigit with
    | '.' :: rest => some (cs.takeWhile Char.isDigit ++ '.' :: rest.takeWhile Char.isDigit)
    | _ => some (cs.takeWhile Char.isDigit)

/-- The leftmost match of `value=(\d+\.?\d*)` in a list of runes: the text of
the match and of its subexpression. -/
def sampleFind : List Char → Option (String × String)
  | [] => none
  | c :: cs =>
    if "value=".toList.isPrefixOf (c :: cs) then
      match sampleNumber ((c :: cs).drop 6) with
      | some number => some (String.mk ("value=".toList ++ number), String.mk number)
      | none => sampleFind cs
    else sampleFind cs

/-- The runes a metric or label name may hold past its first: ASCII letters,
digits, the underscore and, in a metric name (`colon`), the colon. -/
def sampleNameRune (colon : Bool) (c : Char) : Bool :=
  c.isAlphanum || c == '_' || (colon && c == ':')

/-- A sample of the validation of `prometheus.NewDesc`, after the classic rule
for names: the metric name matches `[a-zA-Z_:][a-zA-Z0-9_:]*` and each label
name matches `[a-zA-Z_][a-zA-Z0-9_]*` and does not start with `__`. -/
def sampleDescErr (fqName _help : String) (constLabels : List (String × String)) :
    Option String :=
  let valid (colon : Bool) (name : String) : Bool :=
    match name.toList with
    | [] => false
    | c :: cs => !c.isDigit && sampleNameRune colon c && cs.all (sampleNameRune colon)
  if !valid true fqName then some "not a valid metric name"
  else if constLabels.all fun label =>
      valid false label.1 && !"__".toList.isPrefixOf label.1.toList then none
  else some "not a valid label name"

/-- The compiled regular expression `value=(\d+\.?\d*)`. -/
def sampleRegexp : Regexp :=
  ⟨1, fun s => (sampleFind s.toList).map fun found => (found.1, fun _ => found.2)⟩

/-- A sample of the library: `sampleParseFloat`, `sampleSprint`, the one
pattern `value=(\d+\.?\d*)`, no JSON document, and `sampleDescErr`. -/
def sampleLib : Lib :=
  ⟨sampleParseFloat,
    fun pattern =>
      if pattern = "value=(\\d+\\.?\\d*)" then .ok sampleRegexp
      else .error "not a pattern of the sample",
    fun _ => .error "not a document of the sample",
    sampleSprint, sampleDescErr⟩

/-- A world whose clock reads `sinceClock` at the cache test and `nowClock`
when an entry is stored, in which the file `/tmp/value` holds `content`, every
command prints `7`, and no HTTP endpoint answers. -/
def sampleWorld (sinceClock nowClock : Time) (content : String) : World :=
  ⟨sinceClock, fun _ => (none, "7\n"), fun _ => .error "connection refused",
    fun path => if path = "/tmp/value" then .ok content else .error "no such file",
    nowClock⟩

/-- A parser of a given type, with the pattern, delimiter and indices of the
examples of the specification. -/
def sampleParser (type : String) (index : Int) : Parser :=
  ⟨type, "value=(\\d+\\.?\\d*)", "items.1", index, ",", index⟩

/-- A parser of the type `split` with a given delimiter and index. -/
def sampleSplitParser (delimiter : String) (index : Int) : Parser :=
  ⟨"split", "", "", 0, delimiter, index⟩

/-- An exporter of a given name, source type and interval that reads the whole
of `/tmp/value` as a gauge. -/
def sampleExporter (name type : String) (interval : Int) : Exporter :=
  ⟨name, type, "echo 7", "http://localhost/value", "/tmp/value", interval, "gauge",
    sampleParser "" 0, [], "a sample"⟩

/-- A configuration of two exporters: the first has the unsupported source type
`ftp`, the second reads a file. -/
def sampleConfig : Config :=
  ⟨[sampleExporter "broken" "ftp" 60, sampleExporter "temperature" "file" 60]⟩

/-- A configuration that registration refuses: its first exporter has the empty
name, which is not a metric name. -/
def unnamedConfig : Config :=
  ⟨[sampleExporter "" "ftp" 60, sampleExporter "temperature" "file" 60]⟩

/-- A configuration of one exporter whose interval, 9223372037 seconds, is more
than `math.MaxInt64` nanoseconds. -/
def longConfig : Config :=
  ⟨[sampleExporter "temperature" "file" 9223372037]⟩

/-- The collector after a first scrape of `sampleConfig`, its entries stored at
clock reading 5. -/
def sampleCollector : CustomCollector :=
  (Collect sampleLib (fun _ => sampleWorld 0 5 "42.5\n") (NewCustomCollector sampleConfig)).collector

/-- The collector after a first scrape of `longConfig`, its entry stored at
clock reading 5. -/
def longCollector : CustomCollector :=
  (Collect sampleLib (fun _ => sampleWorld 0 5 "42.5\n") (NewCustomCollector longConfig)).collector

/-- The JSON document with the member `items`, the array of 10, 20 and 30. -/
def sampleItems : JSON :=
  .object [("items", .array [.number ⟨0x4024000000000000⟩, .number ⟨0x4034000000000000⟩,
    .number ⟨0x403E000000000000⟩])]

/-! # Theorems -/

/-! ### The model of `strings.Split` -/

theorem splitLoop_ne_nil (sep : List Char) :
    ∀ (cs : List Char) (skip : Nat) (acc : List Char), splitLoop sep skip acc cs ≠ [] := by
  intro cs
  induction cs with
  | nil => intro skip acc; simp [splitLoop]
  | cons c cs ih =>
    intro skip acc
    cases skip with
    | succ k => simp only [splitLoop]; exact ih k acc
    | zero =>
      simp only [splitLoop]
      split_ifs
      · simp
      · exact ih 0 (c :: acc)

theorem intercalate_cons_of_ne_nil (sep x : List Char) (rest : List (List Char))
    (h : rest ≠ []) :
    List.intercalate sep (x :: rest) = x ++ sep ++ List.intercalate sep rest := by
  cases rest with
  | nil => exact absurd rfl h
  | cons y ys => simp [List.intercalate, List.intersperse]

/-- The pieces of `splitLoop`, joined by the separator, are the text read. -/
theorem splitLoop_join (sep : List Char) (hsep : sep ≠ []) :
    ∀ (cs : List Char) (skip : Nat) (acc : List Char), skip ≤ cs.length →
      List.intercalate sep (splitLoop sep skip acc cs) = acc.reverse ++ cs.drop skip := by
  intro cs
  induction cs with
  | nil =>
    intro skip acc h
    simp [splitLoop, List.intercalate]
  | cons c cs ih =>
    intro skip acc h
    cases skip with
    | succ k =>
      simp only [splitLoop, List.drop_succ_cons]
      exact ih k acc (by simpa using h)
    | zero =>
      simp only [splitLoop, List.drop_zero]
      split_ifs with hp
      · obtain ⟨t, ht⟩ := List.isPrefixOf_iff_prefix.1 hp
        have hlen : 1 ≤ sep.length := by
          cases sep with
          | nil => exact absurd rfl hsep
          | cons a as => simp
        have hlen' : sep.length - 1 ≤ cs.length := by
          have := congrArg List.length ht
          simp at this
          omega
        have hdrop : cs.drop (sep.length - 1) = t := by
          have h1 : (c :: cs).drop sep.length = t := by
            rw [← ht]; simp
          have h2 : (c :: cs).drop sep.length = cs.drop (sep.length - 1) := by
            obtain ⟨n, hn⟩ : ∃ n, sep.length = n + 1 := ⟨sep.length - 1, by omega⟩
            rw [hn]; simp
          rw [← h2, h1]
        rw [intercalate_cons_of_ne_nil _ _ _ (splitLoop_ne_nil sep cs _ _),
          ih (sep.length - 1) [] hlen', hdrop, ← ht]
        simp
      · rw [ih 0 (c :: acc) (Nat.zero_le _)]
        simp

/-- With a separator of one rune, no piece of `splitLoop` holds the separator. -/
theorem splitLoop_free (x : Char) :
    ∀ (cs acc : List Char), x ∉ acc → ∀ piece ∈ splitLoop [x] 0 acc cs, x ∉ piece := by
  intro cs
  induction cs with
  | nil =>
    intro acc hacc piece hp
    simp only [splitLoop, List.mem_singleton] at hp
    subst hp
    simpa using hacc
  | cons c cs ih =>
    intro acc hacc piece hp
    simp only [splitLoop] at hp
    split_ifs at hp with hpre
    · simp only [List.length_singleton, Nat.sub_self, List.mem_cons] at hp
      rcases hp with hp | hp
      · subst hp; simpa using hacc
      · exact ih [] (by simp) piece hp
    · have hne : c ≠ x := by
        intro h
        apply hpre
        simp [List.isPrefixOf, h]
      apply ih (c :: acc) _ piece hp
      simp only [List.mem_cons, not_or]
      exact ⟨fun h => hne h.symm, hacc⟩

/-- The model of `strings.Split` cuts the text at separators only: the pieces
joined by a non-empty separator give the text back. -/
theorem Split_join (s sep : String) (hsep : sep ≠ "") :
    List.intercalate sep.toList ((Split s sep).map String.toList) = s.toList := by
  have hsep' : sep.toList ≠ [] := by
    intro h
    apply hsep
    cases sep
    simp_all
  unfold Split
  rw [if_neg hsep, List.map_map]
  have : (String.toList ∘ String.mk) = id := by
    funext l; rfl
  rw [this, List.map_id, splitLoop_join sep.toList hsep' s.toList 0 [] (Nat.zero_le _)]
  simp

/-- The model of `strings.Split` cuts the text at every newline: no line holds
one. With `Split_join` this fixes the lines of a text. -/
theorem Split_lines_free (s : String) : ∀ line ∈ Split s "\n", '\n' ∉ line.toList := by
  intro line hline
  unfold Split at hline
  rw [if_neg (by decide)] at hline
  obtain ⟨piece, hpiece, rfl⟩ := List.mem_map.1 hline
  exact splitLoop_free '\n' s.toList [] (by simp) piece hpiece

/-! ### The model of `strings.TrimSpace` -/

/-- The trimmed text is the text without a run of white space at each end, and
neither starts nor ends with white space. -/
theorem trimSpaceList_spec (cs : List Char) :
    ∃ pre post : List Char, cs = pre ++ trimSpaceList cs ++ post ∧
      (∀ c ∈ pre, isSpace c = true) ∧ (∀ c ∈ post, isSpace c = true) ∧
      (∀ c, (trimSpaceList cs).head? = some c → isSpace c = false) ∧
      (∀ c, (trimSpaceList cs).getLast? = some c → isSpace c = false) := by
  have hd : cs.dropWhile isSpace =
      trimSpaceList cs ++ ((cs.dropWhile isSpace).reverse.takeWhile isSpace).reverse := by
    have h := List.takeWhile_append_dropWhile isSpace (cs.dropWhile isSpace).reverse
    have h' := congrArg List.reverse h
    rw [List.reverse_append, List.reverse_reverse] at h'
    exact h'.symm
  refine ⟨cs.takeWhile isSpace, ((cs.dropWhile isSpace).reverse.takeWhile isSpace).reverse,
    ?_, ?_, ?_, ?_, ?_⟩
  · rw [List.append_assoc, ← hd, List.takeWhile_append_dropWhile]
  · intro c hc
    exact List.mem_takeWhile_imp hc
  · intro c hc
    exact List.mem_takeWhile_imp (List.mem_reverse.1 hc)
  · intro c hc
    have hhead : (cs.dropWhile isSpace).head? = some c := by
      rw [hd, List.head?_append, hc]; rfl
    have := List.head?_dropWhile_not isSpace cs
    rw [hhead] at this
    simpa using this
  · intro c hc
    have hne : List.rdropWhile isSpace (cs.dropWhile isSpace) ≠ [] := by
      intro h
      have : trimSpaceList cs = [] := h
      rw [this] at hc
      simp at hc
    have hlast := List.rdropWhile_last_not isSpace (cs.dropWhile isSpace) hne
    have heq : (List.rdropWhile isSpace (cs.dropWhile isSpace)).getLast hne = c := by
      have h1 : (trimSpaceList cs).getLast? = some ((trimSpaceList cs).getLast hne) :=
        List.getLast?_eq_getLast _ hne
      rw [hc] at h1
      exact (Option.some.inj h1).symm
    rw [heq] at hlast
    simpa using hlast

/-! ### The parser -/

theorem parseData.convert_ok {lib : Lib} {s : String} {v : Float64}
    (h : lib.ParseFloat s = .ok v) : parseData.convert lib s = (v, none) := by
  simp [parseData.convert, h]

theorem parseData.convert_error {lib : Lib} {s err : String}
    (h : lib.ParseFloat s = .error err) :
    parseData.convert lib s = (Float64.zero, some (.notANumber err)) := by
  simp [parseData.convert, h]

theorem parseData_line_eq (lib : Lib) (rawData : String) (parser : Parser)
    (hType : parser.Typ = "line") :
    parseData lib rawData parser =
      if h : parser.LineNum ≥ (Split (TrimSpace rawData) "\n").length ∨ parser.LineNum < 0 then
        (Float64.zero, some (.lineOutOfRange parser.LineNum))
      else parseData.convert lib
        (TrimSpace ((Split (TrimSpace rawData) "\n").get ⟨parser.LineNum.toNat, by omega⟩)) := by
  unfold parseData
  rw [if_neg (by rw [hType]; decide), if_neg (by rw [hType]; decide), if_pos hType]

theorem parseData_split_eq (lib : Lib) (rawData : String) (parser : Parser)
    (hType : parser.Typ = "split") :
    parseData lib rawData parser =
      if h : parser.Index ≥ (Split (TrimSpace rawData) parser.Split).length ∨ parser.Index < 0 then
        (Float64.zero, some (.splitOutOfRange parser.Index))
      else parseData.convert lib
        (TrimSpace ((Split (TrimSpace rawData) parser.Split).get ⟨parser.Index.toNat, by omega⟩)) := by
  unfold parseData
  rw [if_neg (by rw [hType]; decide), if_neg (by rw [hType]; decide),
    if_neg (by rw [hType]; decide), if_pos hType]

theorem TrimSpace_spec (s : String) :
    ∃ pre post : List Char, s.toList = pre ++ (TrimSpace s).toList ++ post ∧
      (∀ c ∈ pre, isSpace c = true) ∧ (∀ c ∈ post, isSpace c = true) ∧
      (∀ c, (TrimSpace s).toList.head? = some c → isSpace c = false) ∧
      (∀ c, (TrimSpace s).toList.getLast? = some c → isSpace c = false) :=
  trimSpaceList_spec s.toList

theorem parseData_line_at (lib : Lib) (parser : Parser) (hType : parser.Typ = "line")
    (rawData : String) (n : Nat) (line : String) (hn : parser.LineNum = n)
    (hline : (Split (TrimSpace rawData) "\n")[n]? = some line) :
    parseData lib rawData parser = parseData.convert lib (TrimSpace line) := by
  rcases List.getElem?_eq_some.1 hline with ⟨hlt, hval⟩
  have hget : (Split (TrimSpace rawData) "\n").get ⟨parser.LineNum.toNat, by omega⟩ = line := by
    rw [← hval]
    simp [hn]
  rw [parseData_line_eq lib rawData parser hType, dif_neg (by omega), hget]

theorem parseData_split_at (lib : Lib) (parser : Parser) (hType : parser.Typ = "split")
    (rawData : String) (n : Nat) (token : String) (hn : parser.Index = n)
    (htoken : (Split (TrimSpace rawData) parser.Split)[n]? = some token) :
    parseData lib rawData parser = parseData.convert lib (TrimSpace token) := by
  rcases List.getElem?_eq_some.1 htoken with ⟨hlt, hval⟩
  have hget : (Split (TrimSpace rawData) parser.Split).get ⟨parser.Index.toNat, by omega⟩
      = token := by
    rw [← hval]
    simp [hn]
  rw [parseData_split_eq lib rawData parser hType, dif_neg (by omega), hget]

/-- C7: with the parser type `line`, `parseData` splits the trimmed raw text on
newlines; a line number that is negative or not less than the number of lines
gives the out-of-range error; otherwise the result is the numeric conversion of
the trimmed line at that zero-based index, an error if the line is not numeric.
For the raw text `a\nb\nc` and line number 1 the selected line is `b`. Trimming
is what the claim says: in a raw text that starts with a newline and whose lines
are wrapped in blanks, tabs and carriage returns, line 1 is counted from the
first line that is not blank and is converted without the white space around it;
the trimmed text is the text less a run of white space at each end; and the
lines are the pieces between the newlines. -/
theorem parseData_line (lib : Lib) (parser : Parser) (hType : parser.Typ = "line") :
    (∀ rawData : String,
      parser.LineNum < 0 ∨ ((Split (TrimSpace rawData) "\n").length : Int) ≤ parser.LineNum →
      parseData lib rawData parser = (Float64.zero, some (.lineOutOfRange parser.LineNum))) ∧
    (∀ (rawData : String) (n : Nat) (line : String), parser.LineNum = n →
      (Split (TrimSpace rawData) "\n")[n]? = some line →
      (∀ value, lib.ParseFloat (TrimSpace line) = .ok value →
        parseData lib rawData parser = (value, none)) ∧
      (∀ err, lib.ParseFloat (TrimSpace line) = .error err →
        parseData lib rawData parser = (Float64.zero, some (.notANumber err)))) ∧
    (parser.LineNum = 1 →
      (Split (TrimSpace "a\nb\nc") "\n")[1]? = some "b" ∧
      (∀ value, lib.ParseFloat "b" = .ok value →
        parseData lib "a\nb\nc" parser = (value, none)) ∧
      (∀ err, lib.ParseFloat "b" = .error err →
        parseData lib "a\nb\nc" parser = (Float64.zero, some (.notANumber err)))) ∧
    (parser.LineNum = 1 →
      TrimSpace "\n a \n\tb \r\nc\n " = "a \n\tb \r\nc" ∧
      (Split (TrimSpace "\n a \n\tb \r\nc\n ") "\n")[1]? = some "\tb \r" ∧
      TrimSpace "\tb \r" = "b" ∧
      (∀ value, lib.ParseFloat "b" = .ok value →
        parseData lib "\n a \n\tb \r\nc\n " parser = (value, none)) ∧
      (∀ err, lib.ParseFloat "b" = .error err →
        parseData lib "\n a \n\tb \r\nc\n " parser =
          (Float64.zero, some (.notANumber err)))) ∧
    (∀ s : String, ∃ pre post : List Char, s.toList = pre ++ (TrimSpace s).toList ++ post ∧
      (∀ c ∈ pre, isSpace c = true) ∧ (∀ c ∈ post, isSpace c = true) ∧
      (∀ c, (TrimSpace s).toList.head? = some c → isSpace c = false) ∧
      (∀ c, (TrimSpace s).toList.getLast? = some c → isSpace c = false)) ∧
    (∀ s : String,
      List.intercalate "\n".toList ((Split s "\n").map String.toList) = s.toList ∧
      ∀ line ∈ Split s "\n", '\n' ∉ line.toList) := by
  refine ⟨?_, ?_, ?_, ?_, TrimSpace_spec,
    fun s => ⟨Split_join s "\n" (by decide), Split_lines_free s⟩⟩
  · intro rawData h
    rw [parseData_line_eq lib rawData parser hType, dif_pos (by omega)]
  · intro rawData n line hn hline
    have hpd := parseData_line_at lib parser hType rawData n line hn hline
    exact ⟨fun v hv => by rw [hpd, parseData.convert_ok hv],
      fun e he => by rw [hpd, parseData.convert_error he]⟩
  · intro h1
    have hb : (Split (TrimSpace "a\nb\nc") "\n")[1]? = some "b" := by rfl
    have hpd := parseData_line_at lib parser hType "a\nb\nc" 1 "b" (by simpa using h1) hb
    have htrim : TrimSpace "b" = "b" := by rfl
    rw [htrim] at hpd
    exact ⟨hb, fun v hv => by rw [hpd, parseData.convert_ok hv],
      fun e he => by rw [hpd, parseData.convert_error he]⟩
  · intro h1
    have hb : (Split (TrimSpace "\n a \n\tb \r\nc\n ") "\n")[1]? = some "\tb \r" := by rfl
    have hpd := parseData_line_at lib parser hType "\n a \n\tb \r\nc\n " 1 "\tb \r"
      (by simpa using h1) hb
    have htrim : TrimSpace "\tb \r" = "b" := by rfl
    rw [htrim] at hpd
    exact ⟨by rfl, hb, htrim, fun v hv => by rw [hpd, parseData.convert_ok hv],
      fun e he => by rw [hpd, parseData.convert_error he]⟩

theorem parseData_regex_eq (lib : Lib) (rawData : String) (parser : Parser)
    (hType : parser.Typ = "regex") :
    parseData lib rawData parser =
      match lib.Compile parser.Pattern with
      | .error err => (Float64.zero, some (.invalidRegex err))
      | .ok re =>
        if h : (re.FindStringSubmatch rawData).length < 2 then (Float64.zero, some .regexNoMatch)
        else parseData.convert lib ((re.FindStringSubmatch rawData).get ⟨1, by omega⟩) := by
  unfold parseData
  rw [if_pos hType]

/-- C8: with the parser type `split`, `parseData` splits the trimmed raw text
on the configured delimiter; an index that is negative or not less than the
number of tokens gives the out-of-range error; otherwise the result is the
numeric conversion of the trimmed token at that zero-based position. For the
delimiter `,` and index 2 on the raw text `1,2,3` the token is `3` and the
result is its value. Trimming is what the claim says: a token wrapped in blanks
and tabs is converted without them; with a blank as the delimiter the blanks
around the raw text make no token, so index 2 of ` 1 2 3 ` is `3`; the trimmed
text is the text less a run of white space at each end; and the tokens are the
pieces between the delimiters. -/
theorem parseData_split (lib : Lib) (parser : Parser) (hType : parser.Typ = "split") :
    (∀ rawData : String,
      parser.Index < 0 ∨
        ((Split (TrimSpace rawData) parser.Split).length : Int) ≤ parser.Index →
      parseData lib rawData parser = (Float64.zero, some (.splitOutOfRange parser.Index))) ∧
    (∀ (rawData : String) (n : Nat) (token : String), parser.Index = n →
      (Split (TrimSpace rawData) parser.Split)[n]? = some token →
      (∀ value, lib.ParseFloat (TrimSpace token) = .ok value →
        parseData lib rawData parser = (value, none)) ∧
      (∀ err, lib.ParseFloat (TrimSpace token) = .error err →
        parseData lib rawData parser = (Float64.zero, some (.notANumber err)))) ∧
    (parser.Split = "," → parser.Index = 2 →
      (Split (TrimSpace "1,2,3") ",")[2]? = some "3" ∧
      ∀ three, lib.ParseFloat "3" = .ok three → parseData lib "1,2,3" parser = (three, none)) ∧
    (parser.Split = "," → parser.Index = 2 →
      TrimSpace " 1, 2 ,\t3 \n" = "1, 2 ,\t3" ∧
      (Split (TrimSpace " 1, 2 ,\t3 \n") ",")[2]? = some "\t3" ∧
      TrimSpace "\t3" = "3" ∧
      ∀ three, lib.ParseFloat "3" = .ok three →
        parseData lib " 1, 2 ,\t3 \n" parser = (three, none)) ∧
    (parser.Split = " " → parser.Index = 2 →
      (Split " 1 2 3 " " ")[2]? = some "2" ∧
      (Split (TrimSpace " 1 2 3 ") " ")[2]? = some "3" ∧
      ∀ three, lib.ParseFloat "3" = .ok three →
        parseData lib " 1 2 3 " parser = (three, none)) ∧
    (∀ s : String, ∃ pre post : List Char, s.toList = pre ++ (TrimSpace s).toList ++ post ∧
      (∀ c ∈ pre, isSpace c = true) ∧ (∀ c ∈ post, isSpace c = true) ∧
      (∀ c, (TrimSpace s).toList.head? = some c → isSpace c = false) ∧
      (∀ c, (TrimSpace s).toList.getLast? = some c → isSpace c = false)) ∧
    (∀ s sep : String, sep ≠ "" →
      List.intercalate sep.toList ((Split s sep).map String.toList) = s.toList) := by
  refine ⟨?_, ?_, ?_, ?_, ?_, TrimSpace_spec, Split_join⟩
  · intro rawData h
    rw [parseData_split_eq lib rawData parser hType, dif_pos (by omega)]
  · intro rawData n token hn htoken
    have hpd := parseData_split_at lib parser hType rawData n token hn htoken
    exact ⟨fun v hv => by rw [hpd, parseData.convert_ok hv],
      fun e he => by rw [hpd, parseData.convert_error he]⟩
  · intro hsep hidx
    have h3 : (Split (TrimSpace "1,2,3") ",")[2]? = some "3" := by rfl
    refine ⟨h3, fun three hthree => ?_⟩
    have hpd := parseData_split_at lib parser hType "1,2,3" 2 "3" (by simpa using hidx)
      (by rw [hsep]; exact h3)
    rw [hpd]
    exact parseData.convert_ok hthree
  · intro hsep hidx
    have h3 : (Split (TrimSpace " 1, 2 ,\t3 \n") ",")[2]? = some "\t3" := by rfl
    have htrim : TrimSpace "\t3" = "3" := by rfl
    refine ⟨by rfl, h3, htrim, fun three hthree => ?_⟩
    have hpd := parseData_split_at lib parser hType " 1, 2 ,\t3 \n" 2 "\t3"
      (by simpa using hidx) (by rw [hsep]; exact h3)
    rw [hpd, htrim]
    exact parseData.convert_ok hthree
  · intro hsep hidx
    have h3 : (Split (TrimSpace " 1 2 3 ") " ")[2]? = some "3" := by rfl
    have htrim : TrimSpace "3" = "3" := by rfl
    refine ⟨by rfl, h3, fun three hthree => ?_⟩
    have hpd := parseData_split_at lib parser hType " 1 2 3 " 2 "3"
      (by simpa using hidx) (by rw [hsep]; exact h3)
    rw [hpd, htrim]
    exact parseData.convert_ok hthree

/-- C9: with the parser type `regex`, `parseData` returns an error when the
pattern does not compile, when it has no match in the raw text, or when it has
no capture group; otherwise the result is the numeric conversion of the text of
the first capture group of the leftmost match, nothing else of the text being
looked at. For the pattern `value=(\d+\.?\d*)`, which finds `value=42.5` and
`42.5` in the raw text `value=42.5`, the result is the value of `42.5`. -/
theorem parseData_regex (lib : Lib) (parser : Parser) (hType : parser.Typ = "regex") :
    (∀ (rawData err : String), lib.Compile parser.Pattern = .error err →
      parseData lib rawData parser = (Float64.zero, some (.invalidRegex err))) ∧
    (∀ (rawData : String) (re : Regexp), lib.Compile parser.Pattern = .ok re →
      (re.leftmost rawData = none →
        parseData lib rawData parser = (Float64.zero, some .regexNoMatch)) ∧
      (re.NumSubexp = 0 →
        parseData lib rawData parser = (Float64.zero, some .regexNoMatch)) ∧
      (∀ (whole : String) (sub : Fin re.NumSubexp → String) (h : 0 < re.NumSubexp),
        re.leftmost rawData = some (whole, sub) →
        (∀ value, lib.ParseFloat (sub ⟨0, h⟩) = .ok value →
          parseData lib rawData parser = (value, none)) ∧
        (∀ err, lib.ParseFloat (sub ⟨0, h⟩) = .error err →
          parseData lib rawData parser = (Float64.zero, some (.notANumber err))))) ∧
    (∀ (re : Regexp) (value : Float64), parser.Pattern = "value=(\\d+\\.?\\d*)" →
      lib.Compile parser.Pattern = .ok re →
      re.FindStringSubmatch "value=42.5" = ["value=42.5", "42.5"] →
      lib.ParseFloat "42.5" = .ok value →
      parseData lib "value=42.5" parser = (value, none)) := by
  refine ⟨?_, ?_, ?_⟩
  · intro rawData err herr
    rw [parseData_regex_eq lib rawData parser hType, herr]
  · intro rawData re hre
    refine ⟨?_, ?_, ?_⟩
    · intro hnone
      rw [parseData_regex_eq lib rawData parser hType, hre]
      simp [Regexp.FindStringSubmatch, hnone]
    · intro hzero
      rw [parseData_regex_eq lib rawData parser hType, hre]
      have : (re.FindStringSubmatch rawData).length < 2 := by
        unfold Regexp.FindStringSubmatch
        cases re.leftmost rawData with
        | none => simp
        | some p => simp [hzero]
      simp [this]
    · intro whole sub h hsome
      have hfound : re.FindStringSubmatch rawData = whole :: List.ofFn sub := by
        simp [Regexp.FindStringSubmatch, hsome]
      have hpd : parseData lib rawData parser = parseData.convert lib (sub ⟨0, h⟩) := by
        rw [parseData_regex_eq lib rawData parser hType, hre]
        simp only
        have hlen : ¬ (re.FindStringSubmatch rawData).length < 2 := by
          rw [hfound]; simp; omega
        rw [dif_neg hlen]
        congr 1
        simp [hfound]
      exact ⟨fun v hv => by rw [hpd, parseData.convert_ok hv],
        fun e he => by rw [hpd, parseData.convert_error he]⟩
  · intro re value _ hre hfound hvalue
    have hlen : ¬ (re.FindStringSubmatch "value=42.5").length < 2 := by
      rw [hfound]; decide
    have hget : (re.FindStringSubmatch "value=42.5").get ⟨1, by omega⟩ = "42.5" := by
      simp [hfound]
    rw [parseData_regex_eq lib _ parser hType, hre]
    simp only
    rw [dif_neg hlen, hget]
    exact parseData.convert_ok hvalue

theorem extractJSONValue.loop_eq (lib : Lib) (segments : List String) :
    ∀ data : JSON, extractJSONValue.loop lib data segments =
      match specResolve data segments with
      | .ok value => (lib.Sprint value, none)
      | .error err => ("", some err) := by
  induction segments with
  | nil => intro data; cases data <;> simp [extractJSONValue.loop, specResolve]
  | cons part rest ih =>
    intro data
    cases data with
    | object v =>
      simp only [extractJSONValue.loop, specResolve, specDescend]
      cases hv : v.lookup part with
      | none => simp
      | some val => simp [ih]
    | array v =>
      simp only [extractJSONValue.loop, specResolve, specDescend]
      cases ha : Atoi part with
      | none => simp
      | some index =>
        simp only
        by_cases hneg : index < 0
        · rw [dif_pos (Or.inr hneg), if_pos hneg]
        · by_cases hlen : index ≥ v.length
          · rw [dif_pos (Or.inl hlen), if_neg hneg]
            have : v[index.toNat]? = none := by
              apply List.getElem?_eq_none
              omega
            simp [this]
          · rw [dif_neg (by omega), if_neg hneg]
            have hlt : index.toNat < v.length := by omega
            have : v[index.toNat]? = some (v.get ⟨index.toNat, hlt⟩) := by
              simp [List.getElem?_eq_getElem hlt]
            simp [this, ih]
    | null => simp [extractJSONValue.loop, specResolve, specDescend]
    | bool b => simp [extractJSONValue.loop, specResolve, specDescend]
    | number x => simp [extractJSONValue.loop, specResolve, specDescend]
    | string s => simp [extractJSONValue.loop, specResolve, specDescend]

/-- C6: for a non-empty path, `extractJSONValue` descends one segment at a time
as the specification says (`specResolve`: a key looked up in an object, an
integer index into an array, an error for an absent key, a non-numeric segment
or an index out of range) and returns the string rendering of the value it
reaches. The path `items.1` on an object whose member `items` is an array of
three numbers resolves to the second, the path `items.5` is the out-of-range
error, and `connections.active` resolves to the member `active` of the member
`connections`. -/
theorem extractJSONValue_descends (lib : Lib) (data : JSON) (path : String) (hpath : path ≠ "") :
    (extractJSONValue lib data path =
      match specResolve data (Split path ".") with
      | .ok value => (lib.Sprint value, none)
      | .error err => ("", some err)) ∧
    (∀ a b c : Float64,
      extractJSONValue lib (.object [("items", .array [.number a, .number b, .number c])])
        "items.1" = (lib.Sprint (.number b), none) ∧
      extractJSONValue lib (.object [("items", .array [.number a, .number b, .number c])])
        "items.5" = ("", some (.indexOutOfRange 5))) ∧
    (∀ x : Float64,
      extractJSONValue lib (.object [("connections", .object [("active", .number x)])])
        "connections.active" = (lib.Sprint (.number x), none)) := by
  refine ⟨?_, fun a b c => ⟨by rfl, by rfl⟩, fun x => by rfl⟩
  unfold extractJSONValue
  rw [if_neg hpath, extractJSONValue.loop_eq]

/-! ### Maps -/

theorem lookup_mapSet_self {V : Type} (m : List (String × V)) (k : String) (v : V) :
    (mapSet m k v).lookup k = some v := by
  induction m with
  | nil => simp [mapSet, List.lookup]
  | cons p rest ih =>
    obtain ⟨k', v'⟩ := p
    by_cases h : k' = k
    · simp [mapSet, h, List.lookup]
    · have h' : (k == k') = false := by simpa using fun e => h e.symm
      simp [mapSet, h, List.lookup, h', ih]

theorem lookup_mapSet_ne {V : Type} (m : List (String × V)) (k k' : String) (v : V)
    (hne : k' ≠ k) : (mapSet m k v).lookup k' = m.lookup k' := by
  induction m with
  | nil =>
    have h' : (k' == k) = false := by simpa using hne
    simp [mapSet, List.lookup, h']
  | cons p rest ih =>
    obtain ⟨k₁, v₁⟩ := p
    by_cases h : k₁ = k
    · subst h
      have h' : (k' == k₁) = false := by simpa using hne
      simp [mapSet, List.lookup, h']
    · simp only [mapSet, h, if_false, List.lookup]
      cases (k' == k₁) <;> simp [ih]

theorem keys_mapSet {V W : Type} (m : List (String × V)) (n : List (String × W))
    (k : String) (v : V) (w : W) (h : m.map Prod.fst = n.map Prod.fst) :
    (mapSet m k v).map Prod.fst = (mapSet n k w).map Prod.fst := by
  induction m generalizing n with
  | nil =>
    cases n with
    | nil => simp [mapSet]
    | cons q rest => simp at h
  | cons p rest ih =>
    cases n with
    | nil => simp at h
    | cons q rest' =>
      obtain ⟨k₁, v₁⟩ := p
      obtain ⟨k₂, w₂⟩ := q
      simp only [List.map_cons, List.cons.injEq] at h
      obtain ⟨hk, hrest⟩ := h
      subst hk
      by_cases hk : k₁ = k
      · simp [mapSet, hk, hrest]
      · simp [mapSet, hk, ih rest' hrest]

theorem lookup_isSome_iff_mem_keys {V : Type} (m : List (String × V)) (k : String) :
    (m.lookup k).isSome ↔ k ∈ m.map Prod.fst := by
  induction m with
  | nil => simp [List.lookup]
  | cons p rest ih =>
    obtain ⟨k₁, v₁⟩ := p
    by_cases h : k = k₁
    · simp [List.lookup, h]
    · have h' : (k == k₁) = false := by simpa using h
      simp [List.lookup, h', ih, h]

/-! ### The loop -/

theorem Registered.valid {lib : Lib} {c : CustomCollector} (h : Registered lib c)
    {exporter : Exporter} (he : exporter ∈ c.config.Exporters) :
    (NewDesc lib exporter.Name exporter.Description exporter.Labels).err = none :=
  h _ (List.mem_map_of_mem _ he)

theorem Collect.metric_of_valid (lib : Lib) (exporter : Exporter) (value : Float64)
    (h : (NewDesc lib exporter.Name exporter.Description exporter.Labels).err = none) :
    Collect.metric lib exporter value =
      .ok ⟨NewDesc lib exporter.Name exporter.Description exporter.Labels,
        if exporter.MetricType = "counter" then .CounterValue else .GaugeValue, value⟩ := by
  unfold Collect.metric MustNewConstMetric
  simp only [h]
  split_ifs <;> rfl

theorem Collect.metric_of_invalid (lib : Lib) (exporter : Exporter) (value : Float64)
    (err : String)
    (h : (NewDesc lib exporter.Name exporter.Description exporter.Labels).err = some err) :
    Collect.metric lib exporter value = .error err := by
  unfold Collect.metric MustNewConstMetric
  simp only [h]
  split_ifs <;> rfl

theorem Collect.metric_eq {lib : Lib} {exporter : Exporter} {value : Float64} {m : Metric}
    (h : Collect.metric lib exporter value = .ok m) :
    m = ⟨NewDesc lib exporter.Name exporter.Description exporter.Labels,
      if exporter.MetricType = "counter" then .CounterValue else .GaugeValue, value⟩ := by
  cases herr : (NewDesc lib exporter.Name exporter.Description exporter.Labels).err with
  | some err =>
    rw [Collect.metric_of_invalid lib exporter value err herr] at h
    cases h
  | none =>
    rw [Collect.metric_of_valid lib exporter value herr] at h
    cases h
    rfl

theorem Collect.metric_value {lib : Lib} {exporter : Exporter} {value : Float64} {m : Metric}
    (h : Collect.metric lib exporter value = .ok m) : m.value = value := by
  rw [Collect.metric_eq h]

theorem Collect.metric_fqName {lib : Lib} {exporter : Exporter} {value : Float64} {m : Metric}
    (h : Collect.metric lib exporter value = .ok m) : m.desc.fqName = exporter.Name := by
  rw [Collect.metric_eq h]
  rfl

theorem Collect.body_of_cached (lib : Lib) {w : World} {c : CustomCollector} {exporter : Exporter}
    {m : Metric} (h : Collect.cached w c exporter = some m) :
    Collect.body lib w c exporter = ⟨c, [m], [], [], none⟩ := by
  simp [Collect.body, h]

theorem Collect.body_of_not_cached (lib : Lib) {w : World} {c : CustomCollector}
    {exporter : Exporter} {m : Metric} (h : Collect.cached w c exporter = none)
    (hm : Collect.metric lib exporter (fetchData lib w exporter).1 = .ok m) :
    Collect.body lib w c exporter =
      ⟨⟨c.config, mapSet c.metrics exporter.Name m, mapSet c.lastFetch exporter.Name w.nowClock⟩,
        [m], [exporter], Collect.log exporter (fetchData lib w exporter).2, none⟩ := by
  simp [Collect.body, h, hm]

theorem Collect.body_of_panic (lib : Lib) {w : World} {c : CustomCollector}
    {exporter : Exporter} {p : String} (h : Collect.cached w c exporter = none)
    (hp : Collect.metric lib exporter (fetchData lib w exporter).1 = .error p) :
    Collect.body lib w c exporter =
      ⟨c, [], [exporter], Collect.log exporter (fetchData lib w exporter).2, some p⟩ := by
  simp [Collect.body, h, hp]

theorem Collect.body_panicked (lib : Lib) (w : World) (c : CustomCollector) (exporter : Exporter)
    (hv : (NewDesc lib exporter.Name exporter.Description exporter.Labels).err = none) :
    (Collect.body lib w c exporter).panicked = none := by
  cases hc : Collect.cached w c exporter with
  | some m => rw [Collect.body_of_cached lib hc]
  | none => rw [Collect.body_of_not_cached lib hc (Collect.metric_of_valid lib exporter _ hv)]

theorem Collect.body_sent_length (lib : Lib) (w : World) (c : CustomCollector)
    (exporter : Exporter)
    (hv : (NewDesc lib exporter.Name exporter.Description exporter.Labels).err = none) :
    (Collect.body lib w c exporter).sent.length = 1 := by
  cases hc : Collect.cached w c exporter with
  | some m => rw [Collect.body_of_cached lib hc]; rfl
  | none =>
    rw [Collect.body_of_not_cached lib hc (Collect.metric_of_valid lib exporter _ hv)]; rfl

theorem Collect.body_config (lib : Lib) (w : World) (c : CustomCollector)
    (exporter : Exporter) : (Collect.body lib w c exporter).collector.config = c.config := by
  unfold Collect.body
  cases Collect.cached w c exporter with
  | some m => rfl
  | none =>
    simp only
    cases Collect.metric lib exporter (fetchData lib w exporter).1 <;> rfl

theorem Collect.loop_cons (lib : Lib) (ws : Nat → World) (i : Nat) (c : CustomCollector)
    (exporter : Exporter) (rest : List Exporter)
    (h : (Collect.body lib (ws i) c exporter).panicked = none) :
    Collect.loop lib ws i c (exporter :: rest) =
      ⟨(Collect.loop lib ws (i + 1) (Collect.body lib (ws i) c exporter).collector rest).collector,
        (Collect.body lib (ws i) c exporter).sent ++
          (Collect.loop lib ws (i + 1) (Collect.body lib (ws i) c exporter).collector rest).sent,
        (Collect.body lib (ws i) c exporter).fetched ++
          (Collect.loop lib ws (i + 1) (Collect.body lib (ws i) c exporter).collector rest).fetched,
        (Collect.body lib (ws i) c exporter).logged ++
          (Collect.loop lib ws (i + 1) (Collect.body lib (ws i) c exporter).collector rest).logged,
        (Collect.loop lib ws (i + 1) (Collect.body lib (ws i) c exporter).collector
          rest).panicked⟩ := by
  rw [Collect.loop]
  simp only [h]

theorem Collect.loop_cons_panic (lib : Lib) (ws : Nat → World) (i : Nat) (c : CustomCollector)
    (exporter : Exporter) (rest : List Exporter) (p : String)
    (h : (Collect.body lib (ws i) c exporter).panicked = some p) :
    Collect.loop lib ws i c (exporter :: rest) = Collect.body lib (ws i) c exporter := by
  rw [Collect.loop]
  simp only [h]

theorem Collect.loop_panicked (lib : Lib) (ws : Nat → World) (es : List Exporter)
    (hv : ∀ e ∈ es, (NewDesc lib e.Name e.Description e.Labels).err = none) :
    ∀ (i : Nat) (c : CustomCollector), (Collect.loop lib ws i c es).panicked = none := by
  induction es with
  | nil => intro i c; rfl
  | cons e rest ih =>
    intro i c
    rw [Collect.loop_cons lib ws i c e rest
      (Collect.body_panicked lib (ws i) c e (hv e (List.mem_cons_self _ _)))]
    exact ih (fun e' he' => hv e' (List.mem_cons_of_mem _ he')) _ _

theorem Collect.loop_append (lib : Lib) (ws : Nat → World) (pre post : List Exporter)
    (hv : ∀ e ∈ pre, (NewDesc lib e.Name e.Description e.Labels).err = none) :
    ∀ (i : Nat) (c : CustomCollector),
      Collect.loop lib ws i c (pre ++ post) =
        ⟨(Collect.loop lib ws (i + pre.length) (Collect.loop lib ws i c pre).collector post).collector,
          (Collect.loop lib ws i c pre).sent ++
            (Collect.loop lib ws (i + pre.length) (Collect.loop lib ws i c pre).collector post).sent,
          (Collect.loop lib ws i c pre).fetched ++
            (Collect.loop lib ws (i + pre.length) (Collect.loop lib ws i c pre).collector post).fetched,
          (Collect.loop lib ws i c pre).logged ++
            (Collect.loop lib ws (i + pre.length) (Collect.loop lib ws i c pre).collector post).logged,
          (Collect.loop lib ws (i + pre.length) (Collect.loop lib ws i c pre).collector
            post).panicked⟩ := by
  induction pre with
  | nil => intro i c; simp [Collect.loop]
  | cons e rest ih =>
    intro i c
    have hb := Collect.body_panicked lib (ws i) c e (hv e (List.mem_cons_self _ _))
    have h := ih (fun e' he' => hv e' (List.mem_cons_of_mem _ he')) (i + 1)
      (Collect.body lib (ws i) c e).collector
    have hidx : i + 1 + rest.length = i + (rest.length + 1) := by omega
    rw [hidx] at h
    show Collect.loop lib ws i c (e :: (rest ++ post)) = _
    rw [Collect.loop_cons lib ws i c e (rest ++ post) hb, Collect.loop_cons lib ws i c e rest hb]
    simp only [List.length_cons, h, List.append_assoc]

theorem Collect.loop_sent_length (lib : Lib) (ws : Nat → World) (es : List Exporter)
    (hv : ∀ e ∈ es, (NewDesc lib e.Name e.Description e.Labels).err = none) :
    ∀ (i : Nat) (c : CustomCollector), (Collect.loop lib ws i c es).sent.length = es.length := by
  induction es with
  | nil => intro i c; simp [Collect.loop]
  | cons e rest ih =>
    intro i c
    have hve := hv e (List.mem_cons_self _ _)
    rw [Collect.loop_cons lib ws i c e rest (Collect.body_panicked lib (ws i) c e hve)]
    simp only [List.length_append, List.length_cons,
      ih (fun e' he' => hv e' (List.mem_cons_of_mem _ he')), Collect.body_sent_length lib _ _ _ hve]
    omega

theorem Collect.loop_config (lib : Lib) (ws : Nat → World) (es : List Exporter) :
    ∀ (i : Nat) (c : CustomCollector), (Collect.loop lib ws i c es).collector.config = c.config := by
  induction es with
  | nil => intro i c; simp [Collect.loop]
  | cons e rest ih =>
    intro i c
    cases hp : (Collect.body lib (ws i) c e).panicked with
    | some p => rw [Collect.loop_cons_panic lib ws i c e rest p hp, Collect.body_config]
    | none => rw [Collect.loop_cons lib ws i c e rest hp]; simp [ih, Collect.body_config]

theorem Registered.take {lib : Lib} {c : CustomCollector} (h : Registered lib c) (i : Nat) :
    ∀ e ∈ c.config.Exporters.take i,
      (NewDesc lib e.Name e.Description e.Labels).err = none :=
  fun _ he => h.valid (List.mem_of_mem_take he)

theorem Registered.drop {lib : Lib} {c : CustomCollector} (h : Registered lib c) (i : Nat) :
    ∀ e ∈ c.config.Exporters.drop i,
      (NewDesc lib e.Name e.Description e.Labels).err = none :=
  fun _ he => h.valid (List.mem_of_mem_drop he)

/-- The run of `Collect` of a registered collector cut at iteration `i`: the
first `i` iterations, then the iteration of the exporter at position `i` from
the state they leave, then the loop over the exporters that follow. -/
theorem Collect.split_at (lib : Lib) (ws : Nat → World) (c : CustomCollector) (i : Nat)
    (exporter : Exporter) (hreg : Registered lib c)
    (hi : c.config.Exporters[i]? = some exporter) :
    Collect lib ws c =
      ⟨(Collect.loop lib ws (i + 1)
            (Collect.body lib (ws i) (Collect.stateAt lib ws c i) exporter).collector
            (c.config.Exporters.drop (i + 1))).collector,
        (Collect.loop lib ws 0 c (c.config.Exporters.take i)).sent ++
          ((Collect.body lib (ws i) (Collect.stateAt lib ws c i) exporter).sent ++
            (Collect.loop lib ws (i + 1)
              (Collect.body lib (ws i) (Collect.stateAt lib ws c i) exporter).collector
              (c.config.Exporters.drop (i + 1))).sent),
        (Collect.loop lib ws 0 c (c.config.Exporters.take i)).fetched ++
          ((Collect.body lib (ws i) (Collect.stateAt lib ws c i) exporter).fetched ++
            (Collect.loop lib ws (i + 1)
              (Collect.body lib (ws i) (Collect.stateAt lib ws c i) exporter).collector
              (c.config.Exporters.drop (i + 1))).fetched),
        (Collect.loop lib ws 0 c (c.config.Exporters.take i)).logged ++
          ((Collect.body lib (ws i) (Collect.stateAt lib ws c i) exporter).logged ++
            (Collect.loop lib ws (i + 1)
              (Collect.body lib (ws i) (Collect.stateAt lib ws c i) exporter).collector
              (c.config.Exporters.drop (i + 1))).logged),
        none⟩ := by
  rcases List.getElem?_eq_some.1 hi with ⟨hlt, hval⟩
  have hsplit : c.config.Exporters =
      c.config.Exporters.take i ++ exporter :: c.config.Exporters.drop (i + 1) := by
    rw [← hval]
    simp
  have hlen : (c.config.Exporters.take i).length = i := by
    simp; omega
  have hve := hreg.valid (hval ▸ List.getElem_mem hlt)
  have hb := Collect.body_panicked lib (ws i) (Collect.stateAt lib ws c i) exporter hve
  unfold Collect
  conv => lhs; rw [hsplit]
  rw [Collect.loop_append lib ws _ _ (hreg.take i), hlen, Nat.zero_add]
  have hb' : (Collect.body lib (ws i) (Collect.loop lib ws 0 c (c.config.Exporters.take i)).collector
      exporter).panicked = none := hb
  rw [Collect.loop_cons lib ws i _ exporter _ hb']
  simp only [Collect.stateAt, Collect.loop_panicked lib ws _ (hreg.drop (i + 1))]

/-! ### Freshness arithmetic -/

theorem intervalDuration_eq {interval : Int} (hlo : -9223372036 ≤ interval)
    (hhi : interval ≤ 9223372036) : intervalDuration interval = interval * Second := by
  simp only [intervalDuration, wrap64, Second]
  omega

theorem intervalDuration_le_max (interval : Int) : intervalDuration interval ≤ maxDuration := by
  simp only [intervalDuration, wrap64, maxDuration]
  omega

theorem intervalDuration_le (interval : Int) (hlo : -9223372036 ≤ interval) :
    intervalDuration interval ≤ interval * Second := by
  simp only [intervalDuration, wrap64, Second]
  omega

theorem fresh_iff {interval : Int} (now ts : Int) (hlo : 0 ≤ interval)
    (hhi : interval ≤ 9223372036) :
    Since now ts < intervalDuration interval ↔ now - ts < interval * Second := by
  rw [intervalDuration_eq (by omega) hhi]
  simp only [Since, minDuration, maxDuration, Second]
  constructor
  · intro h
    omega
  · intro h
    omega

theorem not_fresh_of_stale {interval : Int} (now ts : Int) (hlo : -9223372036 ≤ interval)
    (hstale : interval * Second ≤ now - ts) :
    ¬ Since now ts < intervalDuration interval := by
  have h1 := intervalDuration_le interval hlo
  have h2 := intervalDuration_le_max interval
  simp only [Since, minDuration, maxDuration, Second] at *
  omega

/-! ### Errors come with the value zero -/

theorem parseData.convert_zero_of_error (lib : Lib) (s : String) (err : Error)
    (h : (parseData.convert lib s).2 = some err) : (parseData.convert lib s).1 = Float64.zero := by
  unfold parseData.convert at h ⊢
  cases hp : lib.ParseFloat s with
  | error e => simp
  | ok v => simp [hp] at h

theorem parseData_zero_of_error (lib : Lib) (rawData : String) (parser : Parser) (err : Error)
    (h : (parseData lib rawData parser).2 = some err) :
    (parseData lib rawData parser).1 = Float64.zero := by
  unfold parseData at h ⊢
  by_cases h1 : parser.Typ = "regex"
  · rw [if_pos h1] at h ⊢
    cases hc : lib.Compile parser.Pattern with
    | error e => simp
    | ok re =>
      simp only [hc] at h ⊢
      split_ifs at h ⊢
      · rfl
      · exact parseData.convert_zero_of_error lib _ err h
  rw [if_neg h1] at h ⊢
  by_cases h2 : parser.Typ = "json"
  · rw [if_pos h2] at h ⊢
    cases hu : lib.Unmarshal rawData with
    | error e => simp
    | ok jsonData =>
      simp only [hu] at h ⊢
      rcases hx : extractJSONValue lib jsonData parser.JsonPath with ⟨result, _ | e⟩
      · simp only [hx] at h ⊢
        exact parseData.convert_zero_of_error lib _ err h
      · simp
  rw [if_neg h2] at h ⊢
  by_cases h3 : parser.Typ = "line"
  · rw [if_pos h3] at h ⊢
    simp only at h ⊢
    split_ifs at h ⊢
    · rfl
    · exact parseData.convert_zero_of_error lib _ err h
  rw [if_neg h3] at h ⊢
  by_cases h4 : parser.Typ = "split"
  · rw [if_pos h4] at h ⊢
    simp only at h ⊢
    split_ifs at h ⊢
    · rfl
    · exact parseData.convert_zero_of_error lib _ err h
  rw [if_neg h4] at h ⊢
  exact parseData.convert_zero_of_error lib _ err h

theorem fetchData.parse_zero_of_error (lib : Lib) (exporter : Exporter)
    (r : String × Option Error) (err : Error)
    (h : (fetchData.parse lib exporter r).2 = some err) :
    (fetchData.parse lib exporter r).1 = Float64.zero := by
  obtain ⟨raw, e⟩ := r
  cases e with
  | some e => rfl
  | none => exact parseData_zero_of_error lib raw exporter.Parser err h

theorem fetchData_zero_of_error (lib : Lib) (w : World) (exporter : Exporter) (err : Error)
    (h : (fetchData lib w exporter).2 = some err) :
    (fetchData lib w exporter).1 = Float64.zero := by
  unfold fetchData at h ⊢
  split_ifs at h ⊢
  · exact fetchData.parse_zero_of_error lib exporter _ err h
  · exact fetchData.parse_zero_of_error lib exporter _ err h
  · exact fetchData.parse_zero_of_error lib exporter _ err h
  · rfl

/-! ### Iterations of the loop -/

theorem Registered.of_config {lib : Lib} {c c' : CustomCollector} (h : Registered lib c)
    (hc : c'.config = c.config) : Registered lib c' := by
  unfold Registered Describe at h ⊢
  rw [hc]
  exact h

theorem Collect.stateAt_succ (lib : Lib) (ws : Nat → World) (c : CustomCollector) (i : Nat)
    (exporter : Exporter) (hreg : Registered lib c)
    (hi : c.config.Exporters[i]? = some exporter) :
    Collect.stateAt lib ws c (i + 1) =
      (Collect.body lib (ws i) (Collect.stateAt lib ws c i) exporter).collector := by
  rcases List.getElem?_eq_some.1 hi with ⟨hlt, hval⟩
  have htake : c.config.Exporters.take (i + 1) = c.config.Exporters.take i ++ [exporter] := by
    rw [List.take_succ, hi]
    rfl
  have hlen : (c.config.Exporters.take i).length = i := by
    simp; omega
  have hb : (Collect.body lib (ws i) (Collect.loop lib ws 0 c (c.config.Exporters.take i)).collector
      exporter).panicked = none :=
    Collect.body_panicked lib (ws i) _ exporter (hreg.valid (hval ▸ List.getElem_mem hlt))
  unfold Collect.stateAt
  rw [htake, Collect.loop_append lib ws _ _ (hreg.take i), hlen, Nat.zero_add,
    Collect.loop_cons lib ws i _ exporter [] hb]
  simp only [Collect.loop]

theorem Collect.sent_at (lib : Lib) (ws : Nat → World) (c : CustomCollector) (i : Nat)
    (exporter : Exporter) (hreg : Registered lib c)
    (hi : c.config.Exporters[i]? = some exporter) :
    (Collect lib ws c).sent[i]? =
      (Collect.body lib (ws i) (Collect.stateAt lib ws c i) exporter).sent[0]? := by
  rcases List.getElem?_eq_some.1 hi with ⟨hlt, hval⟩
  have hlen : (Collect.loop lib ws 0 c (c.config.Exporters.take i)).sent.length = i := by
    rw [Collect.loop_sent_length lib ws _ (hreg.take i)]
    simp; omega
  have hb := Collect.body_sent_length lib (ws i) (Collect.stateAt lib ws c i) exporter
    (hreg.valid (hval ▸ List.getElem_mem hlt))
  rw [Collect.split_at lib ws c i exporter hreg hi]
  simp only
  rw [List.getElem?_append_right (by omega), hlen, Nat.sub_self,
    List.getElem?_append_left (by omega)]

theorem Collect.logged_at (lib : Lib) (ws : Nat → World) (c : CustomCollector) (i : Nat)
    (exporter : Exporter) (hreg : Registered lib c)
    (hi : c.config.Exporters[i]? = some exporter) (entry : String × Error)
    (h : entry ∈ (Collect.body lib (ws i) (Collect.stateAt lib ws c i) exporter).logged) :
    entry ∈ (Collect lib ws c).logged := by
  rw [Collect.split_at lib ws c i exporter hreg hi]
  simp only [List.mem_append]
  exact Or.inr (Or.inl h)

/-- C1: in a registered collector, when the iteration of `Collect` for the
exporter at position `i` finds no usable cache entry (missing or stale) and
`fetchData` returns an error, the metric sent at position `i` is that exporter's
metric with the value 0.0, as many metrics are sent as there are exporters (so
each of the remaining exporters is processed), and the error is only logged:
the run ends without an error and without a panic. -/
theorem Collect_error_yields_zero (lib : Lib) (ws : Nat → World) (c : CustomCollector) (i : Nat)
    (exporter : Exporter) (err : Error)
    (hreg : Registered lib c)
    (hi : c.config.Exporters[i]? = some exporter)
    (hmiss : Collect.cached (ws i) (Collect.stateAt lib ws c i) exporter = none)
    (herr : (fetchData lib (ws i) exporter).2 = some err) :
    (∃ m, (Collect lib ws c).sent[i]? = some m ∧ m.value = Float64.zero ∧
      m.desc.fqName = exporter.Name) ∧
    (Collect lib ws c).sent.length = c.config.Exporters.length ∧
    (∀ j, i < j → j < c.config.Exporters.length → ((Collect lib ws c).sent[j]?).isSome) ∧
    (exporter.Name, err) ∈ (Collect lib ws c).logged ∧
    (Collect lib ws c).panicked = none := by
  have hall : ∀ e ∈ c.config.Exporters,
      (NewDesc lib e.Name e.Description e.Labels).err = none := fun e he => hreg.valid he
  have hlen : (Collect lib ws c).sent.length = c.config.Exporters.length :=
    Collect.loop_sent_length lib ws _ hall 0 c
  have hve := hreg.valid (List.mem_iff_getElem?.2 ⟨i, hi⟩)
  obtain ⟨m, hm⟩ : ∃ m, Collect.metric lib exporter (fetchData lib (ws i) exporter).1 = .ok m :=
    ⟨_, Collect.metric_of_valid lib exporter (fetchData lib (ws i) exporter).1 hve⟩
  have hbody := Collect.body_of_not_cached lib hmiss hm
  refine ⟨⟨m, ?_, ?_, Collect.metric_fqName hm⟩, hlen, ?_, ?_,
    Collect.loop_panicked lib ws _ hall 0 c⟩
  · rw [Collect.sent_at lib ws c i exporter hreg hi, hbody]
    rfl
  · rw [Collect.metric_value hm]
    exact fetchData_zero_of_error lib (ws i) exporter err herr
  · intro j _ hj
    rw [← hlen] at hj
    simp [List.getElem?_eq_getElem hj]
  · apply Collect.logged_at lib ws c i exporter hreg hi
    rw [hbody, herr]
    simp [Collect.log]

/-! ### Invariants of the cache -/

theorem Collect.cached_none_of_stale {w : World} {c : CustomCollector} {exporter : Exporter}
    (hint : -9223372036 ≤ exporter.Interval)
    (hstale : c.lastFetch.lookup exporter.Name = none ∨
      ∃ ts, c.lastFetch.lookup exporter.Name = some ts ∧
        exporter.Interval * Second ≤ w.sinceClock - ts) :
    Collect.cached w c exporter = none := by
  unfold Collect.cached
  rcases hstale with h | ⟨ts, h, hts⟩
  · simp [h]
  · simp only [h]
    rw [if_neg (not_fresh_of_stale w.sinceClock ts hint hts)]

/-- C3: in a registered collector, when there is no timestamp for the exporter
at position `i`, or one that is at least `interval` seconds old, the iteration
calls `fetchData` once for it, builds the metric from the value `fetchData`
returned, sends it, and leaves that same metric and the time read by
`time.Now()` in the cache under the exporter's name. The interval is at least
-9223372036 seconds, which the data model's invariant `interval ≥ 0` implies. -/
theorem Collect_refetches_when_stale (lib : Lib) (ws : Nat → World) (c : CustomCollector)
    (i : Nat) (exporter : Exporter)
    (hreg : Registered lib c)
    (hi : c.config.Exporters[i]? = some exporter)
    (hint : -9223372036 ≤ exporter.Interval)
    (hstale : (Collect.stateAt lib ws c i).lastFetch.lookup exporter.Name = none ∨
      ∃ ts, (Collect.stateAt lib ws c i).lastFetch.lookup exporter.Name = some ts ∧
        exporter.Interval * Second ≤ (ws i).sinceClock - ts) :
    (Collect.body lib (ws i) (Collect.stateAt lib ws c i) exporter).fetched = [exporter] ∧
    ∃ m, Collect.metric lib exporter (fetchData lib (ws i) exporter).1 = .ok m ∧
      m.value = (fetchData lib (ws i) exporter).1 ∧
      m.desc.fqName = exporter.Name ∧
      (Collect lib ws c).sent[i]? = some m ∧
      (Collect.stateAt lib ws c (i + 1)).metrics.lookup exporter.Name = some m ∧
      (Collect.stateAt lib ws c (i + 1)).lastFetch.lookup exporter.Name =
        some (ws i).nowClock := by
  have hve := hreg.valid (List.mem_iff_getElem?.2 ⟨i, hi⟩)
  obtain ⟨m, hm⟩ : ∃ m, Collect.metric lib exporter (fetchData lib (ws i) exporter).1 = .ok m :=
    ⟨_, Collect.metric_of_valid lib exporter (fetchData lib (ws i) exporter).1 hve⟩
  have hbody := Collect.body_of_not_cached lib (Collect.cached_none_of_stale hint hstale) hm
  refine ⟨?_, m, hm, Collect.metric_value hm, Collect.metric_fqName hm, ?_, ?_, ?_⟩
  · rw [hbody]
  · rw [Collect.sent_at lib ws c i exporter hreg hi, hbody]
    rfl
  · rw [Collect.stateAt_succ lib ws c i exporter hreg hi, hbody]
    exact lookup_mapSet_self _ _ _
  · rw [Collect.stateAt_succ lib ws c i exporter hreg hi, hbody]
    exact lookup_mapSet_self _ _ _

theorem Collect.body_sameKeys (lib : Lib) (w : World) (c : CustomCollector) (exporter : Exporter)
    (h : SameKeys c) : SameKeys (Collect.body lib w c exporter).collector := by
  unfold Collect.body
  cases Collect.cached w c exporter with
  | some m => exact h
  | none =>
    simp only
    cases Collect.metric lib exporter (fetchData lib w exporter).1 with
    | error p => exact h
    | ok m => exact keys_mapSet _ _ _ _ _ h

theorem Collect.loop_sameKeys (lib : Lib) (ws : Nat → World) (es : List Exporter) :
    ∀ (i : Nat) (c : CustomCollector), SameKeys c →
      SameKeys (Collect.loop lib ws i c es).collector := by
  induction es with
  | nil => intro i c h; exact h
  | cons e rest ih =>
    intro i c h
    have hb := Collect.body_sameKeys lib (ws i) c e h
    cases hp : (Collect.body lib (ws i) c e).panicked with
    | some p => rw [Collect.loop_cons_panic lib ws i c e rest p hp]; exact hb
    | none => rw [Collect.loop_cons lib ws i c e rest hp]; exact ih (i + 1) _ hb

theorem Reachable.sameKeys {lib : Lib} {config : Config} {c : CustomCollector}
    (h : Reachable lib config c) : SameKeys c := by
  induction h with
  | new => rfl
  | collect ws c _ ih => exact Collect.loop_sameKeys lib ws _ 0 c ih

theorem SameKeys.lookup_isSome {c : CustomCollector} (h : SameKeys c) (name : String) :
    (c.metrics.lookup name).isSome ↔ (c.lastFetch.lookup name).isSome := by
  rw [lookup_isSome_iff_mem_keys, lookup_isSome_iff_mem_keys, h]

/-- C10: in every collector reached from `NewCustomCollector` by runs of
`Collect`, the maps `metrics` and `lastFetch` have the same keys: a name has a
cached metric if and only if it has a timestamp. So at every iteration of a
further run, a timestamp found for a name comes with a cached metric, and an
entry that passes the freshness test is sent from the cache, with no fetch and
no change of the collector. -/
theorem cache_maps_share_keys (lib : Lib) (config : Config) (c : CustomCollector)
    (h : Reachable lib config c) :
    c.metrics.map Prod.fst = c.lastFetch.map Prod.fst ∧
    (∀ name : String, (c.metrics.lookup name).isSome ↔ (c.lastFetch.lookup name).isSome) ∧
    (∀ (ws : Nat → World) (i : Nat) (exporter : Exporter) (ts : Time),
      (Collect.stateAt lib ws c i).lastFetch.lookup exporter.Name = some ts →
      ∃ m, (Collect.stateAt lib ws c i).metrics.lookup exporter.Name = some m ∧
        (Since (ws i).sinceClock ts < intervalDuration exporter.Interval →
          Collect.body lib (ws i) (Collect.stateAt lib ws c i) exporter =
            ⟨Collect.stateAt lib ws c i, [m], [], [], none⟩)) := by
  refine ⟨h.sameKeys, h.sameKeys.lookup_isSome, ?_⟩
  intro ws i exporter ts hts
  have hs : SameKeys (Collect.stateAt lib ws c i) :=
    Collect.loop_sameKeys lib ws _ 0 c h.sameKeys
  have hsome : ((Collect.stateAt lib ws c i).metrics.lookup exporter.Name).isSome := by
    rw [hs.lookup_isSome, hts]; rfl
  obtain ⟨m, hm⟩ := Option.isSome_iff_exists.1 hsome
  refine ⟨m, hm, fun hfresh => ?_⟩
  apply Collect.body_of_cached lib
  unfold Collect.cached
  simp only [hts]
  rw [if_pos hfresh, hm]

theorem Collect.body_keyed (lib : Lib) (w : World) (c : CustomCollector) (exporter : Exporter)
    (h : Keyed c) : Keyed (Collect.body lib w c exporter).collector := by
  cases hc : Collect.cached w c exporter with
  | some m => rw [Collect.body_of_cached lib hc]; exact h
  | none =>
    cases hm : Collect.metric lib exporter (fetchData lib w exporter).1 with
    | error p => rw [Collect.body_of_panic lib hc hm]; exact h
    | ok metric =>
      rw [Collect.body_of_not_cached lib hc hm]
      intro name m hlookup
      simp only at hlookup
      by_cases hname : name = exporter.Name
      · subst hname
        rw [lookup_mapSet_self] at hlookup
        cases hlookup
        exact Collect.metric_fqName hm
      · rw [lookup_mapSet_ne _ _ _ _ hname] at hlookup
        exact h name m hlookup

theorem Collect.cached_lookup {w : World} {c : CustomCollector} {exporter : Exporter} {m : Metric}
    (h : Collect.cached w c exporter = some m) : c.metrics.lookup exporter.Name = some m := by
  unfold Collect.cached at h
  split at h
  · split_ifs at h
    exact h
  · cases h

theorem Collect.loop_keyed (lib : Lib) (ws : Nat → World) (es : List Exporter) :
    ∀ (i : Nat) (c : CustomCollector), Keyed c → Keyed (Collect.loop lib ws i c es).collector := by
  induction es with
  | nil => intro i c h; exact h
  | cons e rest ih =>
    intro i c h
    have hb := Collect.body_keyed lib (ws i) c e h
    cases hp : (Collect.body lib (ws i) c e).panicked with
    | some p => rw [Collect.loop_cons_panic lib ws i c e rest p hp]; exact hb
    | none => rw [Collect.loop_cons lib ws i c e rest hp]; exact ih (i + 1) _ hb

theorem Collect.loop_names (lib : Lib) (ws : Nat → World) (es : List Exporter)
    (hv : ∀ e ∈ es, (NewDesc lib e.Name e.Description e.Labels).err = none) :
    ∀ (i : Nat) (c : CustomCollector), Keyed c →
      (Collect.loop lib ws i c es).sent.map (fun m => m.desc.fqName) =
        es.map (fun e => e.Name) := by
  induction es with
  | nil => intro i c h; rfl
  | cons e rest ih =>
    intro i c h
    have hve := hv e (List.mem_cons_self _ _)
    have hb := Collect.body_keyed lib (ws i) c e h
    have h2 := ih (fun e' he' => hv e' (List.mem_cons_of_mem _ he')) (i + 1) _ hb
    rw [Collect.loop_cons lib ws i c e rest (Collect.body_panicked lib (ws i) c e hve)]
    simp only [List.map_append, List.map_cons, h2]
    cases hc : Collect.cached (ws i) c e with
    | some m =>
      rw [Collect.body_of_cached lib hc]
      simp [h _ _ (Collect.cached_lookup hc)]
    | none =>
      rw [Collect.body_of_not_cached lib hc (Collect.metric_of_valid lib e _ hve)]
      simp [NewDesc]

theorem Reachable.keyed {lib : Lib} {config : Config} {c : CustomCollector}
    (h : Reachable lib config c) : Keyed c := by
  induction h with
  | new => intro name m hm; simp [NewCustomCollector] at hm
  | collect ws c _ ih => exact Collect.loop_keyed lib ws _ 0 c ih

/-- C4: whatever the configuration that registration has accepted, and whatever
the cache, a run of `Collect` sends as many metrics as there are exporters and
ends without a panic, the metric at position `i` being either the metric cached
under the name of exporter `i` or the one built for it from what `fetchData`
returned (a value or, on failure, zero); in a collector reached by scrapes the
names of the metrics sent are the names of the exporters, in the order of the
configuration. -/
theorem Collect_one_metric_per_exporter (lib : Lib) (ws : Nat → World) (c : CustomCollector)
    (hreg : Registered lib c) :
    (Collect lib ws c).sent.length = c.config.Exporters.length ∧
    (Collect lib ws c).panicked = none ∧
    (∀ (i : Nat) (exporter : Exporter), c.config.Exporters[i]? = some exporter →
      ∃ m, (Collect lib ws c).sent[i]? = some m ∧
        ((Collect.stateAt lib ws c i).metrics.lookup exporter.Name = some m ∨
          Collect.metric lib exporter (fetchData lib (ws i) exporter).1 = .ok m)) ∧
    (∀ config : Config, Reachable lib config c →
      (Collect lib ws c).sent.map (fun m => m.desc.fqName) =
        c.config.Exporters.map (fun e => e.Name)) := by
  have hall : ∀ e ∈ c.config.Exporters,
      (NewDesc lib e.Name e.Description e.Labels).err = none := fun e he => hreg.valid he
  refine ⟨Collect.loop_sent_length lib ws _ hall 0 c, Collect.loop_panicked lib ws _ hall 0 c,
    ?_, ?_⟩
  · intro i exporter hi
    rw [Collect.sent_at lib ws c i exporter hreg hi]
    cases hc : Collect.cached (ws i) (Collect.stateAt lib ws c i) exporter with
    | some m =>
      rw [Collect.body_of_cached lib hc]
      exact ⟨m, rfl, Or.inl (Collect.cached_lookup hc)⟩
    | none =>
      obtain ⟨m, hm⟩ :
          ∃ m, Collect.metric lib exporter (fetchData lib (ws i) exporter).1 = .ok m :=
        ⟨_, Collect.metric_of_valid lib exporter (fetchData lib (ws i) exporter).1
          (hreg.valid (List.mem_iff_getElem?.2 ⟨i, hi⟩))⟩
      rw [Collect.body_of_not_cached lib hc hm]
      exact ⟨m, rfl, Or.inr hm⟩
  · intro config h
    exact Collect.loop_names lib ws _ hall 0 c h.keyed

/-! ### Two scrapes -/

theorem Collect.body_lookup_ne (lib : Lib) (w : World) (c : CustomCollector) (exporter : Exporter)
    (name : String) (hne : name ≠ exporter.Name) :
    (Collect.body lib w c exporter).collector.metrics.lookup name = c.metrics.lookup name ∧
    (Collect.body lib w c exporter).collector.lastFetch.lookup name = c.lastFetch.lookup name := by
  cases hc : Collect.cached w c exporter with
  | some m => rw [Collect.body_of_cached lib hc]; exact ⟨rfl, rfl⟩
  | none =>
    cases hm : Collect.metric lib exporter (fetchData lib w exporter).1 with
    | error p => rw [Collect.body_of_panic lib hc hm]; exact ⟨rfl, rfl⟩
    | ok metric =>
      rw [Collect.body_of_not_cached lib hc hm]
      exact ⟨lookup_mapSet_ne _ _ _ _ hne, lookup_mapSet_ne _ _ _ _ hne⟩

theorem Collect.loop_lookup_ne (lib : Lib) (ws : Nat → World) (name : String)
    (es : List Exporter) (hne : ∀ e ∈ es, name ≠ e.Name) :
    ∀ (i : Nat) (c : CustomCollector),
      (Collect.loop lib ws i c es).collector.metrics.lookup name = c.metrics.lookup name ∧
      (Collect.loop lib ws i c es).collector.lastFetch.lookup name = c.lastFetch.lookup name := by
  induction es with
  | nil => intro i c; exact ⟨rfl, rfl⟩
  | cons e rest ih =>
    intro i c
    have hb := Collect.body_lookup_ne lib (ws i) c e name (hne e (List.mem_cons_self _ _))
    cases hp : (Collect.body lib (ws i) c e).panicked with
    | some p => rw [Collect.loop_cons_panic lib ws i c e rest p hp]; exact hb
    | none =>
      rw [Collect.loop_cons lib ws i c e rest hp]
      have hr := ih (fun e' he' => hne e' (List.mem_cons_of_mem _ he')) (i + 1)
        (Collect.body lib (ws i) c e).collector
      exact ⟨hr.1.trans hb.1, hr.2.trans hb.2⟩

theorem names_before_ne {es : List Exporter} (hnames : (es.map (fun e => e.Name)).Nodup)
    {i : Nat} {exporter : Exporter} (hi : es[i]? = some exporter) :
    (∀ e ∈ es.take i, exporter.Name ≠ e.Name) ∧
    (∀ e ∈ es.drop (i + 1), exporter.Name ≠ e.Name) := by
  rcases List.getElem?_eq_some.1 hi with ⟨hlt, hval⟩
  have hsplit : es = es.take i ++ exporter :: es.drop (i + 1) := by
    rw [← hval]; simp
  rw [hsplit, List.map_append, List.map_cons] at hnames
  have h1 := List.nodup_append.1 hnames
  obtain ⟨_, h2, h3⟩ := h1
  have h4 := List.nodup_cons.1 h2
  constructor
  · intro e he heq
    have hmem : e.Name ∈ (es.take i).map (fun e => e.Name) := List.mem_map_of_mem _ he
    exact h3 hmem (by rw [← heq]; exact List.mem_cons_self _ _)
  · intro e he heq
    apply h4.1
    rw [heq]
    exact List.mem_map_of_mem _ he

theorem Collect.collector_eq (lib : Lib) (ws : Nat → World) (c : CustomCollector) (i : Nat)
    (exporter : Exporter) (hreg : Registered lib c)
    (hi : c.config.Exporters[i]? = some exporter) :
    (Collect lib ws c).collector =
      (Collect.loop lib ws (i + 1) (Collect.stateAt lib ws c (i + 1))
        (c.config.Exporters.drop (i + 1))).collector := by
  rw [Collect.split_at lib ws c i exporter hreg hi,
    Collect.stateAt_succ lib ws c i exporter hreg hi]

/-- The positive part of the cache property: in a registered collector, with
names that are unique and an interval of at most 9223372036 seconds, a scrape
less than the interval after the time stored by a scrape that fetched does not
fetch, sends the metric that scrape sent, and leaves the entry as it was. -/
theorem Collect_twice_within_interval (lib : Lib) (ws₁ ws₂ : Nat → World) (c : CustomCollector)
    (i : Nat) (exporter : Exporter)
    (hreg : Registered lib c)
    (hnames : (c.config.Exporters.map (fun e => e.Name)).Nodup)
    (hi : c.config.Exporters[i]? = some exporter)
    (hfetched : Collect.cached (ws₁ i) (Collect.stateAt lib ws₁ c i) exporter = none)
    (hlo : 0 ≤ exporter.Interval) (hhi : exporter.Interval ≤ 9223372036)
    (hsoon : (ws₂ i).sinceClock - (ws₁ i).nowClock < exporter.Interval * Second) :
    (∃ m, Collect.metric lib exporter (fetchData lib (ws₁ i) exporter).1 = .ok m ∧
      (Collect lib ws₁ c).sent[i]? = some m) ∧
    (Collect lib ws₁ c).collector.lastFetch.lookup exporter.Name = some (ws₁ i).nowClock ∧
    (Collect.body lib (ws₂ i) (Collect.stateAt lib ws₂ (Collect lib ws₁ c).collector i)
      exporter).fetched = [] ∧
    (Collect lib ws₂ (Collect lib ws₁ c).collector).sent[i]? = (Collect lib ws₁ c).sent[i]? ∧
    (Collect lib ws₂ (Collect lib ws₁ c).collector).collector.metrics.lookup exporter.Name =
      (Collect lib ws₁ c).collector.metrics.lookup exporter.Name ∧
    (Collect lib ws₂ (Collect lib ws₁ c).collector).collector.lastFetch.lookup exporter.Name =
      (Collect lib ws₁ c).collector.lastFetch.lookup exporter.Name := by
  obtain ⟨hbefore, hafter⟩ := names_before_ne hnames hi
  obtain ⟨m, hm⟩ : ∃ m, Collect.metric lib exporter (fetchData lib (ws₁ i) exporter).1 = .ok m :=
    ⟨_, Collect.metric_of_valid lib exporter _ (hreg.valid (List.mem_iff_getElem?.2 ⟨i, hi⟩))⟩
  have hbody₁ := Collect.body_of_not_cached lib hfetched hm
  -- the first scrape
  have hsent₁ : (Collect lib ws₁ c).sent[i]? = some m := by
    rw [Collect.sent_at lib ws₁ c i exporter hreg hi, hbody₁]; rfl
  have hafter₁ := Collect.loop_lookup_ne lib ws₁ exporter.Name _ hafter (i + 1)
    (Collect.stateAt lib ws₁ c (i + 1))
  rw [← Collect.collector_eq lib ws₁ c i exporter hreg hi] at hafter₁
  have hm₁ : (Collect lib ws₁ c).collector.metrics.lookup exporter.Name = some m := by
    rw [hafter₁.1, Collect.stateAt_succ lib ws₁ c i exporter hreg hi, hbody₁]
    exact lookup_mapSet_self _ _ _
  have ht₁ : (Collect lib ws₁ c).collector.lastFetch.lookup exporter.Name =
      some (ws₁ i).nowClock := by
    rw [hafter₁.2, Collect.stateAt_succ lib ws₁ c i exporter hreg hi, hbody₁]
    exact lookup_mapSet_self _ _ _
  -- the second scrape
  have hcfg : (Collect lib ws₁ c).collector.config = c.config :=
    Collect.loop_config lib ws₁ _ 0 c
  have hreg₂ : Registered lib (Collect lib ws₁ c).collector := hreg.of_config hcfg
  have hi₂ : (Collect lib ws₁ c).collector.config.Exporters[i]? = some exporter := by
    rw [hcfg]; exact hi
  have hbefore₂ := Collect.loop_lookup_ne lib ws₂ exporter.Name _ hbefore 0
    (Collect lib ws₁ c).collector
  have hstate₂ : (Collect.stateAt lib ws₂ (Collect lib ws₁ c).collector i) =
      (Collect.loop lib ws₂ 0 (Collect lib ws₁ c).collector (c.config.Exporters.take i)).collector := by
    unfold Collect.stateAt; rw [hcfg]
  have hcached₂ : Collect.cached (ws₂ i)
      (Collect.stateAt lib ws₂ (Collect lib ws₁ c).collector i) exporter = some m := by
    unfold Collect.cached
    rw [hstate₂, hbefore₂.1, hbefore₂.2, ht₁, hm₁]
    simp only
    rw [if_pos ((fresh_iff _ _ hlo hhi).2 hsoon)]
  have hbody₂ := Collect.body_of_cached lib hcached₂
  have hafter₂ := Collect.loop_lookup_ne lib ws₂ exporter.Name _ hafter (i + 1)
    (Collect.stateAt lib ws₂ (Collect lib ws₁ c).collector (i + 1))
  rw [← hcfg, ← Collect.collector_eq lib ws₂ _ i exporter hreg₂ hi₂,
    Collect.stateAt_succ lib ws₂ _ i exporter hreg₂ hi₂, hbody₂] at hafter₂
  refine ⟨⟨m, hm, hsent₁⟩, ht₁, ?_, ?_, ?_, ?_⟩
  · rw [hbody₂]
  · rw [Collect.sent_at lib ws₂ _ i exporter hreg₂ hi₂, hbody₂, hsent₁]; rfl
  · rw [hafter₂.1, hstate₂, hbefore₂.1]
  · rw [hafter₂.2, hstate₂, hbefore₂.2]

/-- The positive part of the freshness policy: in a collector reached by
scrapes, for an interval from 0 to 9223372036 seconds, the loop takes the cached
metric exactly when the time since the stored timestamp is less than the
interval. -/
theorem Collect_fresh_iff_within_range (lib : Lib) (config : Config) (c : CustomCollector)
    (w : World) (exporter : Exporter) (ts : Time)
    (hreach : Reachable lib config c)
    (hts : c.lastFetch.lookup exporter.Name = some ts)
    (hlo : 0 ≤ exporter.Interval) (hhi : exporter.Interval ≤ 9223372036) :
    (Collect.cached w c exporter).isSome ↔ w.sinceClock - ts < exporter.Interval * Second := by
  have hsome : (c.metrics.lookup exporter.Name).isSome := by
    rw [hreach.sameKeys.lookup_isSome, hts]; rfl
  unfold Collect.cached
  simp only [hts]
  rw [← fresh_iff w.sinceClock ts hlo hhi]
  split_ifs with h
  · simp [hsome, h]
  · simp [h]

/-! ### The theorems at sample inputs -/

theorem parseData_line_witness :
    (sampleParser "line" 1).Typ = "line" ∧
    parseData sampleLib "7\n42.5\n3" (sampleParser "line" 1) =
      (⟨0x4045400000000000⟩, none) ∧
    parseData sampleLib "\n\n 7 \n\t42.5 \r\n3\n \n" (sampleParser "line" 1) =
      (⟨0x4045400000000000⟩, none) ∧
    parseData sampleLib " \n7\n " (sampleParser "line" 1) =
      (Float64.zero, some (.lineOutOfRange 1)) ∧
    parseData sampleLib "7" (sampleParser "line" 1) =
      (Float64.zero, some (.lineOutOfRange 1)) :=
  ⟨rfl,
    ((parseData_line sampleLib (sampleParser "line" 1) rfl).2.1
      "7\n42.5\n3" 1 "42.5" rfl rfl).1 _ rfl,
    ((parseData_line sampleLib (sampleParser "line" 1) rfl).2.1
      "\n\n 7 \n\t42.5 \r\n3\n \n" 1 "\t42.5 \r" rfl rfl).1 _ rfl,
    (parseData_line sampleLib (sampleParser "line" 1) rfl).1 " \n7\n " (Or.inr (by decide)),
    (parseData_line sampleLib (sampleParser "line" 1) rfl).1 "7" (Or.inr (by decide))⟩

theorem parseData_split_witness :
    (sampleParser "split" 2).Typ = "split" ∧
    parseData sampleLib "1,2,3" (sampleParser "split" 2) = (⟨0x4008000000000000⟩, none) ∧
    parseData sampleLib "\t1 , 2,  3 \r\n" (sampleParser "split" 2) =
      (⟨0x4008000000000000⟩, none) ∧
    parseData sampleLib " 20 7 3 \n" (sampleSplitParser " " 1) =
      (⟨0x401C000000000000⟩, none) ∧
    parseData sampleLib "20--7---3" (sampleSplitParser "--" 1) =
      (⟨0x401C000000000000⟩, none) ∧
    parseData sampleLib " 20 7 " (sampleSplitParser " " 2) =
      (Float64.zero, some (.splitOutOfRange 2)) ∧
    parseData sampleLib "1,2" (sampleParser "split" 2) =
      (Float64.zero, some (.splitOutOfRange 2)) :=
  ⟨rfl,
    ((parseData_split sampleLib (sampleParser "split" 2) rfl).2.2.1 rfl rfl).2 _ rfl,
    ((parseData_split sampleLib (sampleParser "split" 2) rfl).2.1
      "\t1 , 2,  3 \r\n" 2 "  3" rfl rfl).1 _ rfl,
    ((parseData_split sampleLib (sampleSplitParser " " 1) rfl).2.1
      " 20 7 3 \n" 1 "7" rfl rfl).1 _ rfl,
    ((parseData_split sampleLib (sampleSplitParser "--" 1) rfl).2.1
      "20--7---3" 1 "7" rfl rfl).1 _ rfl,
    (parseData_split sampleLib (sampleSplitParser " " 2) rfl).1 " 20 7 " (Or.inr (by decide)),
    (parseData_split sampleLib (sampleParser "split" 2) rfl).1 "1,2" (Or.inr (by decide))⟩

theorem parseData_regex_witness :
    (sampleParser "regex" 0).Typ = "regex" ∧
    parseData sampleLib "value=42.5" (sampleParser "regex" 0) =
      (⟨0x4045400000000000⟩, none) ∧
    parseData sampleLib "no value" (sampleParser "regex" 0) =
      (Float64.zero, some .regexNoMatch) :=
  ⟨rfl,
    (parseData_regex sampleLib (sampleParser "regex" 0) rfl).2.2 sampleRegexp _ rfl rfl rfl rfl,
    ((parseData_regex sampleLib (sampleParser "regex" 0) rfl).2.1 "no value" sampleRegexp
      rfl).1 rfl⟩

theorem extractJSONValue_descends_witness :
    "items.1" ≠ "" ∧
    extractJSONValue sampleLib sampleItems "items.1" = ("20", none) ∧
    extractJSONValue sampleLib sampleItems "items.5" = ("", some (.indexOutOfRange 5)) :=
  ⟨by decide,
    (extractJSONValue_descends sampleLib sampleItems "items.1" (by decide)).1.trans rfl,
    (extractJSONValue_descends sampleLib sampleItems "items.5" (by decide)).1.trans rfl⟩

theorem Collect_error_yields_zero_witness :
    Registered sampleLib (NewCustomCollector sampleConfig) ∧
    (fetchData sampleLib (sampleWorld 0 5 "42.5\n") (sampleExporter "broken" "ftp" 60)).2 =
      some (.unsupportedType "ftp") ∧
    (∃ m, (Collect sampleLib (fun _ => sampleWorld 0 5 "42.5\n")
        (NewCustomCollector sampleConfig)).sent[0]? = some m ∧
      m.value = Float64.zero ∧ m.desc.fqName = "broken") ∧
    (Collect sampleLib (fun _ => sampleWorld 0 5 "42.5\n")
      (NewCustomCollector sampleConfig)).sent.length = 2 ∧
    ("broken", Error.unsupportedType "ftp") ∈
      (Collect sampleLib (fun _ => sampleWorld 0 5 "42.5\n")
        (NewCustomCollector sampleConfig)).logged ∧
    (Collect sampleLib (fun _ => sampleWorld 0 5 "42.5\n")
      (NewCustomCollector sampleConfig)).panicked = none :=
  have h := Collect_error_yields_zero sampleLib (fun _ => sampleWorld 0 5 "42.5\n")
    (NewCustomCollector sampleConfig) 0 (sampleExporter "broken" "ftp" 60)
    (.unsupportedType "ftp") (by decide) rfl rfl rfl
  ⟨by decide, rfl, h.1, h.2.1, h.2.2.2.1, h.2.2.2.2⟩

theorem Collect_refetches_when_stale_witness :
    Registered sampleLib sampleCollector ∧
    sampleCollector.lastFetch.lookup "temperature" = some 5 ∧
    (60 : Int) * Second ≤ 60000000005 - 5 ∧
    (Collect sampleLib (fun _ => sampleWorld 60000000005 60000000006 "7\n")
      sampleCollector).sent[1]? =
      some ⟨⟨"temperature", "a sample", [], none⟩, .GaugeValue, ⟨0x401C000000000000⟩⟩ ∧
    ∃ m, m.value = ⟨0x401C000000000000⟩ ∧
      (Collect sampleLib (fun _ => sampleWorld 60000000005 60000000006 "7\n")
        sampleCollector).sent[1]? = some m ∧
      (Collect.stateAt sampleLib (fun _ => sampleWorld 60000000005 60000000006 "7\n")
        sampleCollector 2).metrics.lookup "temperature" = some m ∧
      (Collect.stateAt sampleLib (fun _ => sampleWorld 60000000005 60000000006 "7\n")
        sampleCollector 2).lastFetch.lookup "temperature" = some 60000000006 := by
  obtain ⟨_, m, _, hvalue, _, hsent, hmetric, htime⟩ := Collect_refetches_when_stale sampleLib
    (fun _ => sampleWorld 60000000005 60000000006 "7\n") sampleCollector 1
    (sampleExporter "temperature" "file" 60) (by decide) rfl (by decide)
    (Or.inr ⟨5, rfl, by decide⟩)
  exact ⟨by decide, rfl, by decide, rfl, m, hvalue.trans rfl, hsent, hmetric, htime⟩

theorem cache_maps_share_keys_witness :
    Reachable sampleLib sampleConfig sampleCollector ∧
    sampleCollector.metrics.map Prod.fst = ["broken", "temperature"] ∧
    sampleCollector.metrics.map Prod.fst = sampleCollector.lastFetch.map Prod.fst :=
  ⟨.collect _ _ .new, rfl,
    (cache_maps_share_keys sampleLib sampleConfig sampleCollector (.collect _ _ .new)).1⟩

theorem Collect_one_metric_per_exporter_witness :
    Registered sampleLib sampleCollector ∧
    (Collect sampleLib (fun _ => sampleWorld 1000000005 1000000006 "7\n")
      sampleCollector).sent.length = 2 ∧
    (Collect sampleLib (fun _ => sampleWorld 1000000005 1000000006 "7\n")
      sampleCollector).panicked = none ∧
    (Collect sampleLib (fun _ => sampleWorld 1000000005 1000000006 "7\n")
      sampleCollector).sent.map (fun m => m.desc.fqName) = ["broken", "temperature"] :=
  have h := Collect_one_metric_per_exporter sampleLib
    (fun _ => sampleWorld 1000000005 1000000006 "7\n") sampleCollector (by decide)
  ⟨by decide, h.1, h.2.1, h.2.2.2 sampleConfig (.collect _ _ .new)⟩

/-! ### A collector that registration refuses -/

/-- Without registration the panic of `MustNewConstMetric` is there: the
collector of `unnamedConfig`, whose first exporter has the empty name, is not
registered, and a run of `Collect` on it calls `fetchData` for that exporter,
logs its error, panics, and sends no metric and caches none. -/
theorem Collect_unregistered_panics :
    ¬ Registered sampleLib (NewCustomCollector unnamedConfig) ∧
    Collect sampleLib (fun _ => sampleWorld 0 5 "42.5\n") (NewCustomCollector unnamedConfig) =
      ⟨NewCustomCollector unnamedConfig, [], [sampleExporter "" "ftp" 60],
        [("", .unsupportedType "ftp")], some "not a valid metric name"⟩ :=
  ⟨by decide, rfl⟩

/-! ### An interval of more than `math.MaxInt64` nanoseconds -/

/-- C5 (failing input): the exporter of `longConfig` has the interval 9223372037
seconds, and its entry was stored at clock reading 5 by a scrape. One second
later the entry is 1 s old, less than the interval, yet the product
`time.Duration(9223372037)*time.Second` has wrapped to a negative duration and
the cache test of `Collect` finds no cached metric to send. -/
theorem Collect_fresh_overflow :
    Reachable sampleLib longConfig longCollector ∧
    longCollector.lastFetch.lookup "temperature" = some 5 ∧
    (0 : Int) ≤ 9223372037 ∧
    (1000000005 : Int) - 5 < 9223372037 * Second ∧
    intervalDuration 9223372037 = -9223372036709551616 ∧
    Collect.cached (sampleWorld 1000000005 1000000006 "42.5\n") longCollector
      (sampleExporter "temperature" "file" 9223372037) = none :=
  ⟨.collect _ _ .new, rfl, by decide, by decide, by decide, rfl⟩

/-- C2 (failing input): two consecutive scrapes of `longConfig`, whose exporter
has the interval 9223372037 seconds. The first fetches and stores its entry at
clock reading 5; the second runs one second later, less than the interval after
that, and fetches again: it sends another metric than the first and replaces
the timestamp. -/
theorem Collect_twice_overflow :
    (Collect sampleLib (fun _ => sampleWorld 0 5 "42.5\n")
      (NewCustomCollector longConfig)).fetched = longConfig.Exporters ∧
    longCollector.lastFetch.lookup "temperature" = some 5 ∧
    (1000000005 : Int) - 5 < 9223372037 * Second ∧
    (Collect sampleLib (fun _ => sampleWorld 1000000005 1000000006 "7\n")
      longCollector).fetched = longConfig.Exporters ∧
    (Collect sampleLib (fun _ => sampleWorld 1000000005 1000000006 "7\n")
      longCollector).sent ≠
      (Collect sampleLib (fun _ => sampleWorld 0 5 "42.5\n")
        (NewCustomCollector longConfig)).sent ∧
    (Collect sampleLib (fun _ => sampleWorld 1000000005 1000000006 "7\n")
      longCollector).collector.lastFetch.lookup "temperature" = some 1000000006 :=
  ⟨rfl, rfl, by decide, rfl, by decide, rfl⟩

end CustomExporter
